import Mathlib

/-!
# Expense tracker (`src/app.js`): validation, store and summary

A shallow embedding of the request handlers of `src/app.js` (`/add-expense`,
`/expenses`, `/expenses/analysis`) and of the two helpers they share,
`validateExpense` and `getSummary`.

* JavaScript numbers are `JSNum`: `NaN`, the two infinities, and the finite
  values, carried as rationals. Rounding of IEEE-754 arithmetic is not
  modelled: finite values are added exactly. The totals of `getSummary` and of
  the analysis are stated as the left fold the code computes; the comparison
  of totals across filters and categories relies on the exact addition.
* The values of `req.query` are `QVal`: a missing parameter, a string, or a
  non-string value (array or plain object) known by its `ToString` text.
* `parseFloat` and `Date.parse` are built-ins of the JavaScript host. The
  handlers take them from a `Host`; the general theorems hold for every host,
  and `refHost` is a concrete one used to evaluate the handlers on inputs.
  `toISOString` is a fixed function of the time value and is modelled in full.
-/

namespace ExpenseTracker

/-! ## JavaScript values -/

/-- A JavaScript number: `NaN`, `+Infinity`, `-Infinity` or a finite value. -/
inductive JSNum where
  | nan
  | posInf
  | negInf
  | fin (q : ℚ)
  deriving DecidableEq

namespace JSNum

/-- The global `isNaN` on a number. -/
def isNaN : JSNum → Bool
  | nan => true
  | _ => false

/-- The conversion `ToBoolean` on a number: `NaN` and zero are falsy. -/
def toBoolean : JSNum → Bool
  | nan => false
  | fin q => decide (q ≠ 0)
  | _ => true

/-- The comparison `a <= b` on numbers; false as soon as one side is `NaN`. -/
def le : JSNum → JSNum → Bool
  | nan, _ => false
  | _, nan => false
  | negInf, _ => true
  | _, posInf => true
  | posInf, _ => false
  | fin _, negInf => false
  | fin a, fin b => decide (a ≤ b)

/-- The sum `a + b` on numbers. -/
def add : JSNum → JSNum → JSNum
  | nan, _ => nan
  | _, nan => nan
  | posInf, negInf => nan
  | negInf, posInf => nan
  | posInf, _ => posInf
  | _, posInf => posInf
  | negInf, _ => negInf
  | _, negInf => negInf
  | fin a, fin b => fin (a + b)

/-- The number is neither `NaN` nor infinite (what `Number.isFinite` tests). -/
def isFinite : JSNum → Bool
  | fin _ => true
  | _ => false

end JSNum

/-- A value found in `req.query`: the parameter is missing, or it is a string,
or the query parser built an array or a plain object from it. A non-string
value carries the text `ToString` gives for it. -/
inductive QVal where
  | undefined
  | str (s : String)
  | obj (text : String)
  deriving DecidableEq

namespace QVal

/-- The conversion `ToBoolean`: a missing value and the empty string are falsy,
every object is truthy. -/
def toBoolean : QVal → Bool
  | undefined => false
  | str s => decide (s ≠ "")
  | obj _ => true

/-- The conversion `ToString`. -/
def toStr : QVal → String
  | undefined => "undefined"
  | str s => s
  | obj t => t

/-- Strict equality `a === b`. Two strings are equal when their text is; an
object is equal only to itself, and the objects compared here come from
different requests, so they never are. -/
def strictEq : QVal → QVal → Bool
  | undefined, undefined => true
  | str a, str b => decide (a = b)
  | _, _ => false

end QVal

/-! ## The host's built-ins -/

/-- The built-ins of the JavaScript host that the handlers call: `parseFloat`
on a string, and `Date.parse` on a string, which gives a time value in
milliseconds or `NaN` (`none`). -/
structure Host where
  parseFloat : String → JSNum
  dateParse : String → Option Int

/-- The call `parseFloat(v)`: the argument is converted to a string first. -/
def parseFloatOf (H : Host) (v : QVal) : JSNum :=
  H.parseFloat v.toStr

/-- The call `Date.parse(v)`: the argument is converted to a string first. -/
def dateParseOf (H : Host) (v : QVal) : Option Int :=
  H.dateParse v.toStr

/-- The time value of `new Date(v)`: `NaN` for a missing value, and for a string
or an object the parse of its text, as `Date.parse` does it. -/
def newDate (H : Host) : QVal → Option Int
  | .undefined => none
  | .str s => H.dateParse s
  | .obj t => H.dateParse t

/-- The comparison `a < b` of two `Date` objects, by their time values; false
as soon as one of them is an invalid date. -/
def dateLt : Option Int → Option Int → Bool
  | some a, some b => decide (a < b)
  | _, _ => false

/-- The comparison `a > b` of two `Date` objects. -/
def dateGt : Option Int → Option Int → Bool
  | some a, some b => decide (a > b)
  | _, _ => false

/-! ## Data model -/

/-- The registry `predefinedCategories`. -/
def predefinedCategories : List String :=
  ["Food", "Travel", "Entertainment", "Shopping", "Utilities"]

/-- The candidate record handed to `validateExpense`. The amount is a number
when present (the intake passes `parseFloat(amount)`); `none` is a record
without the field. -/
structure Candidate where
  category : QVal
  amount : Option JSNum
  date : QVal
  deriving DecidableEq

/-- A stored record, `{ id, category, amount, date }`. -/
structure Expense where
  id : Nat
  category : QVal
  amount : JSNum
  date : QVal
  deriving DecidableEq

/-- The result of `validateExpense`: `{ valid: true }` or
`{ valid: false, error }`. -/
structure Validation where
  valid : Bool
  error : Option String
  deriving DecidableEq

/-- The candidate record a stored record is made from. -/
def Expense.toCandidate (e : Expense) : Candidate :=
  { category := e.category, amount := some e.amount, date := e.date }

/-! ## `validateExpense` -/

/-- The test `predefinedCategories.includes(v)`: only a string can be equal to
an element of the registry. -/
def includesCategory : QVal → Bool
  | .str s => predefinedCategories.contains s
  | _ => false

/-- The test `!expense.amount || isNaN(expense.amount) || expense.amount <= 0`. -/
def amountRejected : Option JSNum → Bool
  | none => true
  | some a => !a.toBoolean || a.isNaN || a.le (.fin 0)

/-- The function `validateExpense` of `src/app.js`. -/
def validateExpense (H : Host) (expense : Candidate) : Validation :=
  if !expense.category.toBoolean || !includesCategory expense.category then
    { valid := false, error := some "Invalid category" }
  else if amountRejected expense.amount then
    { valid := false, error := some "Amount must be a positive number" }
  else if !expense.date.toBoolean || (dateParseOf H expense.date).isNone then
    { valid := false, error := some "Invalid date format" }
  else
    { valid := true, error := none }

/-! ## A reference host

`refHost` follows ECMAScript for `parseFloat` (the longest prefix that is a
decimal literal, after leading white space) and for `Date.parse` on the
date-only forms of the date-time string format (`YYYY`, `YYYY-MM`,
`YYYY-MM-DD`, read as UTC). Any other text is not a date for it. -/

/-- The value of a decimal digit. -/
def digitVal (c : Char) : Option Nat :=
  if 48 ≤ c.toNat ∧ c.toNat ≤ 57 then some (c.toNat - 48) else none

/-- Reads the longest run of digits: the value read, the number of digits, and
the rest of the text. -/
def readDigits : List Char → Nat → Nat → Nat × Nat × List Char
  | [], acc, n => (acc, n, [])
  | c :: cs, acc, n =>
    match digitVal c with
    | some d => readDigits cs (acc * 10 + d) (n + 1)
    | none => (acc, n, c :: cs)

/-- White space and line terminators, which `parseFloat` skips. -/
def isStrWhiteSpace (c : Char) : Bool :=
  c.toNat = 32 || (9 ≤ c.toNat && c.toNat ≤ 13) || c.toNat = 160 ||
    c.toNat = 8232 || c.toNat = 8233 || c.toNat = 65279

/-- The exponent part `e[+-]digits` at the head of the text, 0 when there is
none. -/
def readExponent : List Char → Int
  | c :: rest =>
    if c = 'e' ∨ c = 'E' then
      match rest with
      | '-' :: ds =>
        match readDigits ds 0 0 with
        | (_, 0, _) => 0
        | (v, _, _) => -(v : Int)
      | '+' :: ds => ((readDigits ds 0 0).1 : Int)
      | ds => ((readDigits ds 0 0).1 : Int)
    else 0
  | [] => 0

/-- The unsigned decimal literal at the head of the text, if there is one. -/
def readUnsigned (cs : List Char) : Option JSNum :=
  if "Infinity".data.isPrefixOf cs then some .posInf
  else
    match readDigits cs 0 0 with
    | (i, ni, '.' :: rest) =>
      match readDigits rest 0 0 with
      | (f, nf, rest2) =>
        if ni + nf = 0 then none
        else some (.fin (((i : ℚ) + (f : ℚ) / (10 : ℚ) ^ nf) * (10 : ℚ) ^ readExponent rest2))
    | (_, 0, _) => none
    | (i, _, rest) =>
      match readExponent rest with
      | 0 => some (.fin (i : ℚ))
      | ex => some (.fin ((i : ℚ) * (10 : ℚ) ^ ex))

/-- The negation of a number. -/
def JSNum.neg : JSNum → JSNum
  | .nan => .nan
  | .posInf => .negInf
  | .negInf => .posInf
  | .fin q => .fin (-q)

/-- The built-in `parseFloat` on a string. -/
def refParseFloat (s : String) : JSNum :=
  match s.data.dropWhile isStrWhiteSpace with
  | '-' :: cs => ((readUnsigned cs).map JSNum.neg).getD .nan
  | '+' :: cs => (readUnsigned cs).getD .nan
  | cs => (readUnsigned cs).getD .nan

/-- An exact number of digits, read as a number. -/
def readFixed (cs : List Char) (k : Nat) : Option Nat :=
  match readDigits cs 0 0 with
  | (v, n, []) => if n = k then some v else none
  | _ => none

/-- The leap years of the proleptic Gregorian calendar. -/
def isLeapYear (y : Nat) : Bool :=
  (y % 4 = 0 && y % 100 ≠ 0) || y % 400 = 0

/-- The number of days in a month, 0 for a month that does not exist. -/
def daysInMonth (y m : Nat) : Nat :=
  if m = 2 then (if isLeapYear y then 29 else 28)
  else if m = 4 ∨ m = 6 ∨ m = 9 ∨ m = 11 then 30
  else if 1 ≤ m ∧ m ≤ 12 then 31
  else 0

/-- The day number of the first day of a year, counted from 1970-01-01
(`DayFromYear` of ECMAScript). -/
def dayFromYear (y : Int) : Int :=
  365 * (y - 1970) + (y - 1969) / 4 - (y - 1901) / 100 + (y - 1601) / 400

/-- The number of days of a year that come before its month `m`. -/
def daysBeforeMonth (y m : Nat) : Nat :=
  ((List.range m).tail.map (daysInMonth y)).sum

/-- The time value of a calendar date at midnight UTC, when the date exists. -/
def makeDate (y m d : Nat) : Option Int :=
  if 1 ≤ m ∧ m ≤ 12 ∧ 1 ≤ d ∧ d ≤ daysInMonth y m then
    some ((dayFromYear y + daysBeforeMonth y m + (d - 1 : Nat)) * 86400000)
  else none

/-- The built-in `Date.parse` on the date-only forms. -/
def refDateParse (s : String) : Option Int :=
  match s.data.splitOn '-' with
  | [ys] => (readFixed ys 4).bind fun y => makeDate y 1 1
  | [ys, ms] =>
    (readFixed ys 4).bind fun y => (readFixed ms 2).bind fun m => makeDate y m 1
  | [ys, ms, ds] =>
    (readFixed ys 4).bind fun y =>
      (readFixed ms 2).bind fun m => (readFixed ds 2).bind fun d => makeDate y m d
  | _ => none

/-- A concrete host. -/
def refHost : Host :=
  { parseFloat := refParseFloat, dateParse := refDateParse }

/-! ## The store and the handlers -/

/-- The body of a response: `{ status: "error", error }` or
`{ status: "success", data }` with the created record. -/
inductive Body where
  | error (error : Option String)
  | success (data : Expense)
  deriving DecidableEq

/-- A response: its status code and its body. -/
structure Response where
  status : Nat
  body : Body
  deriving DecidableEq

/-- The query of a request to `/add-expense`. -/
structure AddQuery where
  category : QVal
  amount : QVal
  date : QVal
  deriving DecidableEq

/-- The candidate record the handler of `/add-expense` builds from the query. -/
def AddQuery.expense (H : Host) (query : AddQuery) : Candidate :=
  { category := query.category, amount := some (parseFloatOf H query.amount), date := query.date }

/-- The handler of `/add-expense`, on the array `expenses`: the array after the
request and the response sent. -/
def addExpense (H : Host) (expenses : List Expense) (query : AddQuery) :
    List Expense × Response :=
  let validation := validateExpense H (query.expense H)
  if !validation.valid then
    (expenses, { status := 400, body := .error validation.error })
  else
    let newExpense : Expense :=
      { id := expenses.length + 1, category := query.category,
        amount := parseFloatOf H query.amount, date := query.date }
    (expenses ++ [newExpense], { status := 201, body := .success newExpense })

/-- The argument `filterBy` of `getSummary`. -/
structure Filter where
  category : QVal
  startDate : QVal
  endDate : QVal
  deriving DecidableEq

/-- The filter `{}`, also the default of `getSummary`. -/
def Filter.empty : Filter :=
  { category := .undefined, startDate := .undefined, endDate := .undefined }

/-- The result of `getSummary`, `{ total, expenses }`. -/
structure Summary where
  total : JSNum
  expenses : List Expense
  deriving DecidableEq

/-- The callback of the date filter of `getSummary`. -/
def inDateRange (H : Host) (startDate endDate : QVal) (e : Expense) : Bool :=
  let date := newDate H e.date
  if startDate.toBoolean && dateLt date (newDate H startDate) then false
  else if endDate.toBoolean && dateGt date (newDate H endDate) then false
  else true

/-- The function `getSummary` of `src/app.js`, on the array `expenses`. -/
def getSummary (H : Host) (expenses : List Expense) (filterBy : Filter) : Summary :=
  let filteredExpenses := expenses
  let filteredExpenses :=
    if filterBy.category.toBoolean then
      filteredExpenses.filter fun e => e.category.strictEq filterBy.category
    else filteredExpenses
  let filteredExpenses :=
    if filterBy.startDate.toBoolean || filterBy.endDate.toBoolean then
      filteredExpenses.filter (inDateRange H filterBy.startDate filterBy.endDate)
    else filteredExpenses
  let total := filteredExpenses.foldl (fun sum e => sum.add e.amount) (.fin 0)
  { total := total, expenses := filteredExpenses }

/-- The arrays `expenses` the server can hold: it starts empty and changes only
in the handler of `/add-expense`. -/
inductive Reachable (H : Host) : List Expense → Prop where
  | empty : Reachable H []
  | add (expenses : List Expense) (query : AddQuery) :
      Reachable H expenses → Reachable H (addExpense H expenses query).1

/-! ## The rules of the validator, as the specification words them -/

/-- The result `{ valid: true }`. -/
def Validation.accepted : Validation :=
  { valid := true, error := none }

/-- The result `{ valid: false, error: reason }`. -/
def Validation.rejected (reason : String) : Validation :=
  { valid := false, error := some reason }

/-- Rule 1 fails: the category is absent or is not one of the five strings of
the registry. -/
def CategoryFails (category : QVal) : Prop :=
  category ∉ predefinedCategories.map QVal.str

/-- A number that is `<= 0`: `-Infinity`, or a finite value that is at most 0. -/
def JSNum.NonPositive (x : JSNum) : Prop :=
  x = .negInf ∨ ∃ q : ℚ, x = .fin q ∧ q ≤ 0

/-- Rule 2 fails: the amount is absent, is not a number, or is `<= 0`. -/
def AmountFails (amount : Option JSNum) : Prop :=
  amount = none ∨ amount = some .nan ∨ ∃ x, amount = some x ∧ x.NonPositive

/-- Rule 3 fails: the date is absent (missing, or the empty string) or does not
parse. -/
def DateFails (H : Host) (date : QVal) : Prop :=
  date = .undefined ∨ date = .str "" ∨ dateParseOf H date = none

/-! ## Sample inputs -/

/-- The request `/add-expense?category=Food&amount=50&date=2024-01-10`. -/
def foodQuery : AddQuery :=
  { category := .str "Food", amount := .str "50", date := .str "2024-01-10" }

/-- The request `/add-expense?category=Food&amount=abc&date=2024-01-01`. -/
def badAmountQuery : AddQuery :=
  { category := .str "Food", amount := .str "abc", date := .str "2024-01-01" }

/-- The request `/add-expense?category=Rent&amount=10&date=2024-01-01`. -/
def rentQuery : AddQuery :=
  { category := .str "Rent", amount := .str "10", date := .str "2024-01-01" }

/-- The request `/add-expense?category=Food&amount=Infinity&date=2024-01-01`. -/
def infinityQuery : AddQuery :=
  { category := .str "Food", amount := .str "Infinity", date := .str "2024-01-01" }

/-- The array after the three accepted requests `Food, 50, 2024-01-10`,
`Travel, 100, 2024-01-15` and `Food, 25, 2024-02-01`. -/
def sampleExpenses : List Expense :=
  [{ id := 1, category := .str "Food", amount := .fin 50, date := .str "2024-01-10" },
   { id := 2, category := .str "Travel", amount := .fin 100, date := .str "2024-01-15" },
   { id := 3, category := .str "Food", amount := .fin 25, date := .str "2024-02-01" }]

/-! ## The summary, as the specification words it -/

/-- The filter `{ category: c }`. -/
def Filter.ofCategory (c : String) : Filter :=
  { category := .str c, startDate := .undefined, endDate := .undefined }

/-- The sum of a list of numbers, added from 0 in the order of the list. -/
def JSNum.sum (xs : List JSNum) : JSNum :=
  xs.foldl JSNum.add (.fin 0)

/-- The comparison `a >= b` of two `Date` objects, by their time values; false
as soon as one of them is an invalid date. -/
def dateGe : Option Int → Option Int → Bool
  | some a, some b => decide (a ≥ b)
  | _, _ => false

/-- The comparison `a <= b` of two `Date` objects. -/
def dateLe : Option Int → Option Int → Bool
  | some a, some b => decide (a ≤ b)
  | _, _ => false

/-- The inclusive date range of the specification: the date of the record is
`>=` the start date when one is given, and `<=` the end date when one is
given. -/
def withinRange (H : Host) (startDate endDate : QVal) (e : Expense) : Bool :=
  (!startDate.toBoolean || dateGe (newDate H e.date) (newDate H startDate)) &&
    (!endDate.toBoolean || dateLe (newDate H e.date) (newDate H endDate))

/-- The category rule of the summary: the category of the record is the one of
the filter, when one is given. -/
def matchesCategory (category : QVal) (e : Expense) : Bool :=
  !category.toBoolean || e.category.strictEq category

/-- A bound of the date range is usable: it is not given, or it parses. -/
def BoundParses (H : Host) (bound : QVal) : Prop :=
  bound.toBoolean = true → newDate H bound ≠ none

/-- The filter `{ startDate: "abc" }`, whose start date does not parse. -/
def badStartFilter : Filter :=
  { category := .undefined, startDate := .str "abc", endDate := .undefined }

/-- The filter `{ startDate: "2024-01-10", endDate: "2024-01-15" }`. -/
def januaryFilter : Filter :=
  { category := .undefined, startDate := .str "2024-01-10", endDate := .str "2024-01-15" }

/-! ## The handlers of `/expenses` and `/expenses/analysis` -/

/-- The response of `/expenses`, `{ status: "success", data: summary }`, sent
with the default status 200. -/
structure SummaryResponse where
  status : Nat
  data : Summary
  deriving DecidableEq

/-- The handler of `/expenses`, on the array `expenses`: the array after the
request, which the handler does not write, and the response sent. -/
def expensesRoute (H : Host) (expenses : List Expense) (query : Filter) :
    List Expense × SummaryResponse :=
  let summary := getSummary H expenses
    { category := query.category, startDate := query.startDate, endDate := query.endDate }
  (expenses, { status := 200, data := summary })

/-- The civil date, as year, month and day of the month, of a day number
counted from 1970-01-01 in the proleptic Gregorian calendar. -/
def civilFromDays (day : Int) : Int × Int × Int :=
  let z := day + 719468
  let era := z / 146097
  let doe := z - era * 146097
  let yoe := (doe - doe / 1460 + doe / 36524 - doe / 146096) / 365
  let doy := doe - (365 * yoe + yoe / 4 - yoe / 100)
  let mp := (5 * doy + 2) / 153
  let d := doy - (153 * mp + 2) / 5 + 1
  let m := if mp < 10 then mp + 3 else mp - 9
  (yoe + era * 400 + (if m ≤ 2 then 1 else 0), m, d)

/-- The last `width` decimal digits of a number, zero-padded. -/
def padDigits : Nat → Nat → List Char
  | 0, _ => []
  | width + 1, n => padDigits width (n / 10) ++ [Char.ofNat (48 + n % 10)]

/-- The year of an ISO string: four digits from 0 to 9999, otherwise a sign and
six digits. -/
def isoYear (y : Int) : List Char :=
  if 0 ≤ y ∧ y ≤ 9999 then padDigits 4 y.toNat
  else if y < 0 then '-' :: padDigits 6 (-y).toNat
  else '+' :: padDigits 6 y.toNat

/-- The ISO string `YYYY-MM-DDTHH:mm:ss.sssZ` of a valid time value. -/
def isoString (t : Int) : String :=
  let date := civilFromDays (t / 86400000)
  let ms := (t % 86400000).toNat
  String.mk (isoYear date.1 ++ '-' :: padDigits 2 date.2.1.toNat ++
    '-' :: padDigits 2 date.2.2.toNat ++ 'T' :: padDigits 2 (ms / 3600000) ++
    ':' :: padDigits 2 (ms / 60000 % 60) ++ ':' :: padDigits 2 (ms / 1000 % 60) ++
    '.' :: padDigits 3 (ms % 1000) ++ ['Z'])

/-- The method `toISOString` of a `Date`, by its time value: it throws a
`RangeError` on an invalid date. -/
def toISOString : Option Int → Except String String
  | none => .error "RangeError: Invalid time value"
  | some t => .ok (isoString t)

/-- The call `s.slice(0, n)` on a string. -/
def sliceTo (s : String) (n : Nat) : String :=
  String.mk (s.data.take n)

/-- The month of a record in the analysis,
`new Date(e.date).toISOString().slice(0, 7)`. -/
def monthOf (H : Host) (e : Expense) : Except String String :=
  (toISOString (newDate H e.date)).map fun iso => sliceTo iso 7

/-- An entry `{ category, total }` of `totalByCategory`. -/
structure CategoryTotal where
  category : String
  total : JSNum
  deriving DecidableEq

/-- The accumulator `acc` of the monthly totals: the properties of the object,
in the order they were created. -/
abbrev MonthlyTotals := List (String × JSNum)

/-- The read `acc[month]`, `none` when the object has no such property. -/
def getProp (acc : MonthlyTotals) (month : String) : Option JSNum :=
  acc.lookup month

/-- The write `acc[month] = value`: it replaces the value of the property, or
creates the property after the others. -/
def setProp (acc : MonthlyTotals) (month : String) (value : JSNum) : MonthlyTotals :=
  if acc.any (fun p => p.1 == month) then
    acc.map fun p => if p.1 = month then (month, value) else p
  else acc ++ [(month, value)]

/-- The expression `acc[month] || 0`: 0 when the property is missing or its
value is falsy. -/
def orZero : Option JSNum → JSNum
  | none => .fin 0
  | some v => if v.toBoolean then v else .fin 0

/-- The array `totalByCategory` of the analysis. -/
def totalByCategory (expenses : List Expense) : List CategoryTotal :=
  predefinedCategories.map fun category =>
    let total :=
      (expenses.filter fun e => e.category.strictEq (.str category)).foldl
        (fun sum e => sum.add e.amount) (.fin 0)
    { category := category, total := total }

/-- The object `monthlyTotals` of the analysis; the reduction stops on the
first record whose date is invalid, where `toISOString` throws. -/
def monthlyTotals (H : Host) (expenses : List Expense) : Except String MonthlyTotals :=
  expenses.foldlM
    (fun acc e => do
      let month ← monthOf H e
      pure (setProp acc month ((orZero (getProp acc month)).add e.amount)))
    []

/-- The data of the response of `/expenses/analysis`. -/
structure Analysis where
  totalByCategory : List CategoryTotal
  monthlyTotals : MonthlyTotals
  deriving DecidableEq

/-- The handler of `/expenses/analysis`, on the array `expenses`: the data it
sends with `{ status: "success", data }`, or the error it throws. -/
def analysis (H : Host) (expenses : List Expense) : Except String Analysis := do
  let totals := totalByCategory expenses
  let monthly ← monthlyTotals H expenses
  pure { totalByCategory := totals, monthlyTotals := monthly }

/-- The filter `{ endDate: "abc" }`, whose end date does not parse. -/
def badEndFilter : Filter :=
  { category := .undefined, startDate := .undefined, endDate := .str "abc" }

/-- A store holding one record whose date does not parse, between two that do. -/
def strayExpenses : List Expense :=
  [{ id := 1, category := .str "Food", amount := .fin 50, date := .str "2024-01-10" },
   { id := 2, category := .str "Food", amount := .fin 7, date := .str "abc" },
   { id := 3, category := .str "Food", amount := .fin 25, date := .str "2024-02-01" }]

/-! ## The analysis and the totals, as the specification words them -/

/-- A number strictly greater than 0: a finite value above 0, or `+Infinity`. -/
def JSNum.Positive (x : JSNum) : Prop :=
  x = .posInf ∨ ∃ q : ℚ, 0 < q ∧ x = .fin q

/-- A record as the validator accepts them: its category is one of the
registry, its amount is strictly greater than 0, and its date parses. -/
def WellFormed (H : Host) (e : Expense) : Prop :=
  (∃ c ∈ predefinedCategories, e.category = .str c) ∧ e.amount.Positive ∧
    newDate H e.date ≠ none

/-- The month of a record whose date parses: the first 7 characters of the ISO
string of the parsed date, its year and month in UTC. -/
def monthKey (H : Host) (e : Expense) : Option String :=
  (newDate H e.date).map fun t => sliceTo (isoString t) 7

/-- The first 7 characters of the date of a record, as it was sent. -/
def datePrefix (e : Expense) : String :=
  sliceTo e.date.toStr 7

/-- The reduction of the monthly totals when the month of every record is
known. -/
def monthlyFold (month : Expense → String) (es : List Expense) (acc : MonthlyTotals) :
    MonthlyTotals :=
  es.foldl (fun acc e => setProp acc (month e) ((orZero (getProp acc (month e))).add e.amount))
    acc

/-- The request `/add-expense?category=Food&amount=5&date=2024`. -/
def yearQuery : AddQuery :=
  { category := .str "Food", amount := .str "5", date := .str "2024" }

/-- The three requests of the end-to-end scenario. -/
def scenarioQueries : List AddQuery :=
  [{ category := .str "Food", amount := .str "50", date := .str "2024-01-10" },
   { category := .str "Travel", amount := .str "100", date := .str "2024-01-15" },
   { category := .str "Food", amount := .str "25", date := .str "2024-02-01" }]

/-- The array after a sequence of requests to `/add-expense`. -/
def runAdds (H : Host) (expenses : List Expense) (queries : List AddQuery) : List Expense :=
  queries.foldl (fun store query => (addExpense H store query).1) expenses

/-- The filter `{ category: "" }`, as `/expenses?category=` sends it. -/
def emptyCategoryFilter : Filter :=
  { category := .str "", startDate := .undefined, endDate := .undefined }

/-- The operator `+` on numbers. -/
instance instAddJSNum : Add JSNum :=
  ⟨JSNum.add⟩

/-- The number 0. -/
instance instZeroJSNum : Zero JSNum :=
  ⟨.fin 0⟩

/-- Numbers under `+`, with 0 as unit: the sum is associative and commutative
when the finite values are added exactly. -/
instance instAddCommMonoidJSNum : AddCommMonoid JSNum where
  add_assoc a b c := by
    cases a <;> cases b <;> cases c <;>
      first
      | rfl
      | exact congrArg JSNum.fin (add_assoc _ _ _)
  zero_add a := by
    cases a <;>
      first
      | rfl
      | exact congrArg JSNum.fin (zero_add _)
  add_zero a := by
    cases a <;>
      first
      | rfl
      | exact congrArg JSNum.fin (add_zero _)
  add_comm a b := by
    cases a <;> cases b <;>
      first
      | rfl
      | exact congrArg JSNum.fin (add_comm _ _)
  nsmul := nsmulRec

/-! ## Theorems -/

theorem category_check_iff (v : QVal) :
    (!v.toBoolean || !includesCategory v) = true ↔ CategoryFails v := by
  cases v with
  | undefined => simp [QVal.toBoolean, CategoryFails, predefinedCategories]
  | obj t => simp [QVal.toBoolean, includesCategory, CategoryFails, predefinedCategories]
  | str s =>
    have hmem : CategoryFails (.str s) ↔ s ∉ predefinedCategories := by
      simp [CategoryFails]
    have hne : s ∈ predefinedCategories → s ≠ "" := by
      intro h e
      subst e
      revert h
      decide
    rw [hmem]
    simp only [QVal.toBoolean, includesCategory, Bool.or_eq_true, Bool.not_eq_true',
      decide_eq_false_iff_not, not_not]
    have hc : predefinedCategories.contains s = false ↔ s ∉ predefinedCategories := by
      simp
    rw [hc]
    constructor
    · rintro (h | h)
      · intro hm; exact hne hm h
      · exact h
    · intro h; exact Or.inr h

theorem amount_check_iff (a : Option JSNum) :
    amountRejected a = true ↔ AmountFails a := by
  cases a with
  | none => simp [amountRejected, AmountFails]
  | some x =>
    cases x with
    | nan => simp [amountRejected, AmountFails, JSNum.toBoolean]
    | posInf =>
      simp [amountRejected, AmountFails, JSNum.toBoolean, JSNum.isNaN, JSNum.le,
        JSNum.NonPositive]
    | negInf =>
      simp [amountRejected, AmountFails, JSNum.toBoolean, JSNum.isNaN, JSNum.le,
        JSNum.NonPositive]
    | fin q =>
      have hspec : AmountFails (some (.fin q)) ↔ q ≤ 0 := by
        simp [AmountFails, JSNum.NonPositive]
      rw [hspec]
      simp only [amountRejected, JSNum.toBoolean, JSNum.isNaN, JSNum.le, Bool.or_eq_true,
        Bool.not_eq_true', decide_eq_false_iff_not, not_not, decide_eq_true_eq, Bool.or_false]
      constructor
      · rintro (h | h)
        · exact le_of_eq h
        · exact h
      · intro h; exact Or.inr h

theorem date_check_iff (H : Host) (d : QVal) :
    (!d.toBoolean || (dateParseOf H d).isNone) = true ↔ DateFails H d := by
  cases d <;> simp [QVal.toBoolean, DateFails, Option.isNone_iff_eq_none]

theorem validateExpense_cases (H : Host) (c : Candidate) :
    (CategoryFails c.category ∧ validateExpense H c = .rejected "Invalid category") ∨
    (¬CategoryFails c.category ∧ AmountFails c.amount ∧
      validateExpense H c = .rejected "Amount must be a positive number") ∨
    (¬CategoryFails c.category ∧ ¬AmountFails c.amount ∧ DateFails H c.date ∧
      validateExpense H c = .rejected "Invalid date format") ∨
    (¬CategoryFails c.category ∧ ¬AmountFails c.amount ∧ ¬DateFails H c.date ∧
      validateExpense H c = .accepted) := by
  unfold validateExpense
  by_cases h1 : (!c.category.toBoolean || !includesCategory c.category) = true
  · left
    exact ⟨(category_check_iff _).1 h1, by rw [if_pos h1]; rfl⟩
  · have n1 : ¬CategoryFails c.category := fun h => h1 ((category_check_iff _).2 h)
    right
    rw [if_neg h1]
    by_cases h2 : amountRejected c.amount = true
    · left
      exact ⟨n1, (amount_check_iff _).1 h2, by rw [if_pos h2]; rfl⟩
    · have n2 : ¬AmountFails c.amount := fun h => h2 ((amount_check_iff _).2 h)
      right
      rw [if_neg h2]
      by_cases h3 : (!c.date.toBoolean || (dateParseOf H c.date).isNone) = true
      · left
        exact ⟨n1, n2, (date_check_iff H _).1 h3, by rw [if_pos h3]; rfl⟩
      · right
        exact ⟨n1, n2, fun h => h3 ((date_check_iff H _).2 h), by rw [if_neg h3]; rfl⟩

/-- C1: `validateExpense` returns the result of the first failing rule, in the
order category, amount, date. It returns `Invalid category` exactly when the
category is absent or not one of the five registry strings; `Amount must be a
positive number` exactly when the category passes and the amount is absent,
`NaN` or `<= 0`; `Invalid date format` exactly when category and amount pass
and the date is absent or does not parse; and `{ valid: true }` exactly when
none of the three rules fails. -/
theorem validateExpense_first_failing_rule (H : Host) (c : Candidate) :
    (validateExpense H c = .rejected "Invalid category" ↔ CategoryFails c.category) ∧
    (validateExpense H c = .rejected "Amount must be a positive number" ↔
      ¬CategoryFails c.category ∧ AmountFails c.amount) ∧
    (validateExpense H c = .rejected "Invalid date format" ↔
      ¬CategoryFails c.category ∧ ¬AmountFails c.amount ∧ DateFails H c.date) ∧
    (validateExpense H c = .accepted ↔
      ¬CategoryFails c.category ∧ ¬AmountFails c.amount ∧ ¬DateFails H c.date) ∧
    ((validateExpense H c).valid = true ↔ validateExpense H c = .accepted) := by
  have hne1 : Validation.rejected "Invalid category" ≠
      .rejected "Amount must be a positive number" := by decide
  have hne2 : Validation.rejected "Invalid category" ≠ .rejected "Invalid date format" := by
    decide
  have hne3 : Validation.rejected "Amount must be a positive number" ≠
      .rejected "Invalid date format" := by decide
  have hacc : ∀ r : String, Validation.rejected r ≠ .accepted := by
    intro r h
    simp [Validation.rejected, Validation.accepted] at h
  rcases validateExpense_cases H c with ⟨h1, e⟩ | ⟨n1, h2, e⟩ | ⟨n1, n2, h3, e⟩ | ⟨n1, n2, n3, e⟩
  · rw [e]
    refine ⟨⟨fun _ => h1, fun _ => rfl⟩, ⟨fun h => absurd h hne1, fun h => absurd h1 h.1⟩,
      ⟨fun h => absurd h hne2, fun h => absurd h1 h.1⟩,
      ⟨fun h => absurd h (hacc _), fun h => absurd h1 h.1⟩, ?_⟩
    simp [Validation.rejected, Validation.accepted]
  · rw [e]
    refine ⟨⟨fun h => absurd h.symm hne1, fun h => absurd h n1⟩, ⟨fun _ => ⟨n1, h2⟩, fun _ => rfl⟩,
      ⟨fun h => absurd h hne3, fun h => absurd h2 h.2.1⟩,
      ⟨fun h => absurd h (hacc _), fun h => absurd h2 h.2.1⟩, ?_⟩
    simp [Validation.rejected, Validation.accepted]
  · rw [e]
    refine ⟨⟨fun h => absurd h.symm hne2, fun h => absurd h n1⟩,
      ⟨fun h => absurd h.symm hne3, fun h => absurd h.2 n2⟩,
      ⟨fun _ => ⟨n1, n2, h3⟩, fun _ => rfl⟩,
      ⟨fun h => absurd h (hacc _), fun h => absurd h3 h.2.2⟩, ?_⟩
    simp [Validation.rejected, Validation.accepted]
  · rw [e]
    refine ⟨⟨fun h => absurd h.symm (hacc _), fun h => absurd h n1⟩,
      ⟨fun h => absurd h.symm (hacc _), fun h => absurd h.2 n2⟩,
      ⟨fun h => absurd h.symm (hacc _), fun h => absurd h.2.2 n3⟩,
      ⟨fun _ => ⟨n1, n2, n3⟩, fun _ => rfl⟩, ?_⟩
    simp [Validation.accepted]

/-- C2, as stated, fails: the record `{ category: "Rent", amount: -5,
date: "2024-01-01" }` has an amount `<= 0`, yet `validateExpense` answers
`Invalid category`, not the amount error. -/
theorem amount_error_masked_by_category :
    AmountFails (some (.fin (-5))) ∧
    validateExpense refHost
        { category := .str "Rent", amount := some (.fin (-5)), date := .str "2024-01-01" } =
      .rejected "Invalid category" ∧
    validateExpense refHost
        { category := .str "Rent", amount := some (.fin (-5)), date := .str "2024-01-01" } ≠
      .rejected "Amount must be a positive number" := by
  refine ⟨Or.inr (Or.inr ⟨_, rfl, Or.inr ⟨-5, rfl, by norm_num⟩⟩), by decide, by decide⟩

/-- C2, amended: when the category is one of the registry, a record whose
amount is absent, `NaN` or `<= 0` is rejected with `Amount must be a positive
number`, whether its date is valid or not. -/
theorem validateExpense_amount_error (H : Host) (c : Candidate)
    (hcat : ¬CategoryFails c.category) (hamt : AmountFails c.amount) :
    validateExpense H c = .rejected "Amount must be a positive number" := by
  rcases validateExpense_cases H c with ⟨h, _⟩ | ⟨_, _, e⟩ | ⟨_, n, _⟩ | ⟨_, n, _⟩
  · exact absurd h hcat
  · exact e
  · exact absurd hamt n
  · exact absurd hamt n

theorem validateExpense_amount_error_witness :
    validateExpense refHost
        { category := .str "Food", amount := some (.fin 0), date := .str "no date" } =
      .rejected "Amount must be a positive number" :=
  validateExpense_amount_error refHost
    { category := .str "Food", amount := some (.fin 0), date := .str "no date" }
    (by simp [CategoryFails, predefinedCategories])
    (Or.inr (Or.inr ⟨_, rfl, Or.inr ⟨0, rfl, le_refl _⟩⟩))

/-! ### The handler of `/add-expense` -/

theorem valid_eq_true_iff (H : Host) (c : Candidate) :
    (validateExpense H c).valid = true ↔ validateExpense H c = .accepted := by
  rcases validateExpense_cases H c with ⟨_, e⟩ | ⟨_, _, e⟩ | ⟨_, _, _, e⟩ | ⟨_, _, _, e⟩ <;>
    rw [e] <;> simp [Validation.rejected, Validation.accepted]

theorem addExpense_of_invalid (H : Host) (expenses : List Expense) (query : AddQuery)
    (h : (validateExpense H (query.expense H)).valid = false) :
    addExpense H expenses query =
      (expenses, { status := 400, body := .error (validateExpense H (query.expense H)).error }) := by
  simp [addExpense, h]

theorem addExpense_of_valid (H : Host) (expenses : List Expense) (query : AddQuery)
    (h : (validateExpense H (query.expense H)).valid = true) :
    addExpense H expenses query =
      (expenses ++ [{ id := expenses.length + 1, category := query.category,
                      amount := parseFloatOf H query.amount, date := query.date }],
        { status := 201,
          body := .success { id := expenses.length + 1, category := query.category,
                             amount := parseFloatOf H query.amount, date := query.date } }) := by
  simp [addExpense, h]

/-- C3: when `validateExpense` rejects the request, the handler of
`/add-expense` leaves the array unchanged (same records, same length) and
answers 400 with `{ status: "error", error }`, where `error` is the reason the
validator gave, one of its three messages. In particular the request
`{ category: "Rent", amount: 10, date: "2024-01-01" }` is rejected with
`Invalid category`. -/
theorem addExpense_rejects (H : Host) (expenses : List Expense) (query : AddQuery)
    (h : (validateExpense H (query.expense H)).valid = false) :
    (addExpense H expenses query).1 = expenses ∧
    (addExpense H expenses query).1.length = expenses.length ∧
    (addExpense H expenses query).2 =
      { status := 400, body := .error (validateExpense H (query.expense H)).error } ∧
    (∃ reason ∈ ["Invalid category", "Amount must be a positive number", "Invalid date format"],
      (validateExpense H (query.expense H)).error = some reason) ∧
    addExpense H expenses rentQuery =
      (expenses, { status := 400, body := .error (some "Invalid category") }) := by
  rw [addExpense_of_invalid H expenses query h]
  refine ⟨rfl, rfl, rfl, ?_, ?_⟩
  · rcases validateExpense_cases H (query.expense H) with
      ⟨_, e⟩ | ⟨_, _, e⟩ | ⟨_, _, _, e⟩ | ⟨_, _, _, e⟩
    · exact ⟨"Invalid category", by simp, by rw [e]; rfl⟩
    · exact ⟨"Amount must be a positive number", by simp, by rw [e]; rfl⟩
    · exact ⟨"Invalid date format", by simp, by rw [e]; rfl⟩
    · rw [e] at h; simp [Validation.accepted] at h
  · rfl

theorem addExpense_rejects_witness :
    (addExpense refHost [] badAmountQuery).1 = [] ∧
    (addExpense refHost [] badAmountQuery).2 =
      { status := 400, body := .error (some "Amount must be a positive number") } :=
  have h := addExpense_rejects refHost [] badAmountQuery (by decide)
  ⟨h.1, h.2.2.1⟩

/-- C4: when `validateExpense` accepts the request, the handler of
`/add-expense` appends exactly one record at the end of the array: the old
array is a prefix of the new one, every old record keeps its position, and the
length grows by 1. It answers 201 with the created record, whose category,
amount and date are those of the validated input. -/
theorem addExpense_appends (H : Host) (expenses : List Expense) (query : AddQuery)
    (h : (validateExpense H (query.expense H)).valid = true) :
    ∃ newExpense : Expense,
      (addExpense H expenses query).1 = expenses ++ [newExpense] ∧
      (addExpense H expenses query).2 = { status := 201, body := .success newExpense } ∧
      newExpense.toCandidate = query.expense H ∧
      newExpense.id = expenses.length + 1 ∧
      (addExpense H expenses query).1.length = expenses.length + 1 ∧
      expenses <+: (addExpense H expenses query).1 ∧
      ∀ k, k < expenses.length → (addExpense H expenses query).1[k]? = expenses[k]? := by
  rw [addExpense_of_valid H expenses query h]
  refine ⟨_, rfl, rfl, rfl, rfl, by simp, by simp, ?_⟩
  intro k hk
  simp [List.getElem?_append_left hk]

theorem addExpense_appends_witness :
    ∃ newExpense : Expense,
      (addExpense refHost [] foodQuery).1 = [newExpense] ∧
      (addExpense refHost [] foodQuery).2 = { status := 201, body := .success newExpense } ∧
      newExpense.toCandidate = foodQuery.expense refHost ∧
      newExpense.id = 1 := by
  obtain ⟨e, h1, h2, h3, h4, _⟩ := addExpense_appends refHost [] foodQuery (by decide)
  exact ⟨e, h1, h2, h3, h4⟩

/-! ### Invariants of the store -/

theorem addExpense_store (H : Host) (expenses : List Expense) (query : AddQuery) :
    ((validateExpense H (query.expense H)).valid = false ∧
      (addExpense H expenses query).1 = expenses) ∨
    ((validateExpense H (query.expense H)).valid = true ∧
      (addExpense H expenses query).1 =
        expenses ++ [{ id := expenses.length + 1, category := query.category,
                       amount := parseFloatOf H query.amount, date := query.date }]) := by
  cases h : (validateExpense H (query.expense H)).valid
  · left
    exact ⟨rfl, by rw [addExpense_of_invalid H expenses query h]⟩
  · right
    exact ⟨rfl, by rw [addExpense_of_valid H expenses query h]⟩

theorem reachable_ids (H : Host) (expenses : List Expense) (h : Reachable H expenses) :
    expenses.map Expense.id = List.range' 1 expenses.length := by
  induction h with
  | empty => rfl
  | add expenses query _ ih =>
    rcases addExpense_store H expenses query with ⟨_, e⟩ | ⟨_, e⟩
    · rw [e]; exact ih
    · rw [e, List.map_append, ih, List.length_append, List.length_singleton,
        List.range'_1_concat, Nat.add_comm 1]
      rfl

theorem reachable_valid (H : Host) (expenses : List Expense) (h : Reachable H expenses) :
    ∀ e ∈ expenses, validateExpense H e.toCandidate = .accepted := by
  induction h with
  | empty => intro e he; cases he
  | add expenses query _ ih =>
    rcases addExpense_store H expenses query with ⟨_, e⟩ | ⟨hv, e⟩
    · rw [e]; exact ih
    · rw [e]
      intro x hx
      rcases List.mem_append.1 hx with hx | hx
      · exact ih x hx
      · rw [List.mem_singleton] at hx
        subst hx
        exact (valid_eq_true_iff H _).1 hv

/-- C5: in every array reachable from the empty one by requests to
`/add-expense`, accepted or rejected, the record at 1-based position `k` has
id `k`. The id given to an accepted record is the length of the array before
the append plus 1, so the ids are positive, pairwise distinct and strictly
increasing in insertion order. -/
theorem reachable_ids_sequential (H : Host) (expenses : List Expense)
    (h : Reachable H expenses) :
    (∀ k (hk : k < expenses.length), (expenses.get ⟨k, hk⟩).id = k + 1) ∧
    (∀ query, (validateExpense H (query.expense H)).valid = true →
      ∃ newExpense, (addExpense H expenses query).1 = expenses ++ [newExpense] ∧
        newExpense.id = expenses.length + 1) ∧
    (∀ e ∈ expenses, 0 < e.id) ∧
    (expenses.map Expense.id).Nodup ∧
    (expenses.map Expense.id).Pairwise (· < ·) := by
  have hids := reachable_ids H expenses h
  have hk : ∀ k (hk : k < expenses.length), (expenses.get ⟨k, hk⟩).id = k + 1 := by
    intro k hk
    have h1 : (expenses.map Expense.id)[k]? = (List.range' 1 expenses.length)[k]? := by
      rw [hids]
    rw [List.getElem?_map, List.getElem?_range' _ _ hk, List.getElem?_eq_getElem hk] at h1
    simp only [Option.map_some', Option.some.injEq] at h1
    rw [List.get_eq_getElem, h1]
    omega
  refine ⟨hk, ?_, ?_, ?_, ?_⟩
  · intro query hv
    exact ⟨_, by rw [addExpense_of_valid H expenses query hv], rfl⟩
  · intro e he
    obtain ⟨n, hn⟩ := List.get_of_mem he
    have hid : (expenses.get n).id = n.1 + 1 := hk n.1 n.2
    rw [← hn, hid]
    exact Nat.succ_pos _
  · rw [hids]; exact List.nodup_range' 1 _
  · rw [hids]; exact List.pairwise_lt_range' 1 _

theorem reachable_ids_sequential_witness :
    (∀ k (hk : k < (addExpense refHost [] foodQuery).1.length),
      ((addExpense refHost [] foodQuery).1.get ⟨k, hk⟩).id = k + 1) ∧
    (addExpense refHost [] foodQuery).1.length = 1 :=
  ⟨(reachable_ids_sequential refHost _ (Reachable.add [] foodQuery Reachable.empty)).1,
    by decide⟩

/-- C6: in every array reachable from the empty one by requests to
`/add-expense`, every stored record satisfies the acceptance rule of the
validator: `validateExpense` on its category, amount and date returns
`{ valid: true }`. -/
theorem reachable_records_valid (H : Host) (expenses : List Expense)
    (h : Reachable H expenses) :
    ∀ e ∈ expenses, validateExpense H e.toCandidate = .accepted ∧
      (validateExpense H e.toCandidate).valid = true := by
  intro e he
  have := reachable_valid H expenses h e he
  exact ⟨this, by rw [this]; rfl⟩

theorem reachable_records_valid_witness :
    (addExpense refHost [] foodQuery).1 ≠ [] ∧
    ∀ e ∈ (addExpense refHost [] foodQuery).1,
      validateExpense refHost e.toCandidate = .accepted ∧
        (validateExpense refHost e.toCandidate).valid = true :=
  ⟨by decide,
    reachable_records_valid refHost _ (Reachable.add [] foodQuery Reachable.empty)⟩

/-! ### Accepted amounts -/

/-- C7, as stated, fails: `validateExpense` accepts the record
`{ category: "Food", amount: Infinity, date: "2024-01-01" }`, whose amount is
not finite, and the request `/add-expense?category=Food&amount=Infinity&date=2024-01-01`
stores a record with the amount `Infinity`. -/
theorem infinite_amount_accepted :
    validateExpense refHost
        { category := .str "Food", amount := some .posInf, date := .str "2024-01-01" } =
      .accepted ∧
    JSNum.isFinite .posInf = false ∧
    (addExpense refHost [] infinityQuery).1 =
      [{ id := 1, category := .str "Food", amount := .posInf, date := .str "2024-01-01" }] := by
  refine ⟨by decide, rfl, by decide⟩

/-- C7, amended: the amount of a record that `validateExpense` accepts is a
number that is not `NaN` and is strictly greater than 0: a finite value above
0, or `+Infinity`. -/
theorem accepted_amount_positive (H : Host) (c : Candidate)
    (h : validateExpense H c = .accepted) :
    c.amount = some .posInf ∨ ∃ q : ℚ, 0 < q ∧ c.amount = some (.fin q) := by
  rcases validateExpense_cases H c with ⟨_, e⟩ | ⟨_, _, e⟩ | ⟨_, _, _, e⟩ | ⟨_, n2, _, _⟩
  · rw [e] at h; simp [Validation.rejected, Validation.accepted] at h
  · rw [e] at h; simp [Validation.rejected, Validation.accepted] at h
  · rw [e] at h; simp [Validation.rejected, Validation.accepted] at h
  · cases ha : c.amount with
    | none => exact absurd (Or.inl ha) n2
    | some x =>
      cases x with
      | nan => exact absurd (Or.inr (Or.inl ha)) n2
      | posInf => exact Or.inl rfl
      | negInf => exact absurd (Or.inr (Or.inr ⟨_, ha, Or.inl rfl⟩)) n2
      | fin q =>
        refine Or.inr ⟨q, ?_, rfl⟩
        by_contra hq
        exact n2 (Or.inr (Or.inr ⟨_, ha, Or.inr ⟨q, rfl, not_lt.1 hq⟩⟩))

theorem accepted_amount_positive_witness :
    (some (JSNum.fin 50) = some .posInf ∨
      ∃ q : ℚ, 0 < q ∧ some (JSNum.fin 50) = some (.fin q)) :=
  accepted_amount_positive refHost
    { category := .str "Food", amount := some (.fin 50), date := .str "2024-01-10" }
    (by decide)

/-! ### The summary -/

theorem foldl_add_eq_sum (es : List Expense) (init : JSNum) :
    es.foldl (fun sum e => sum.add e.amount) init =
      (es.map Expense.amount).foldl JSNum.add init := by
  induction es generalizing init with
  | nil => rfl
  | cons e es ih => simp only [List.foldl_cons, List.map_cons]; exact ih _

theorem getSummary_total (H : Host) (expenses : List Expense) (f : Filter) :
    (getSummary H expenses f).total =
      JSNum.sum ((getSummary H expenses f).expenses.map Expense.amount) := by
  simp only [getSummary, JSNum.sum]
  exact foldl_add_eq_sum _ _

theorem foldl_add_fin (qs : List ℚ) (q : ℚ) :
    (qs.map JSNum.fin).foldl JSNum.add (.fin q) = .fin (q + qs.sum) := by
  induction qs generalizing q with
  | nil => simp
  | cons a qs ih =>
    simp only [List.map_cons, List.foldl_cons, List.sum_cons, JSNum.add]
    rw [ih, add_assoc]

theorem sum_fin (qs : List ℚ) : JSNum.sum (qs.map JSNum.fin) = .fin qs.sum := by
  rw [JSNum.sum, foldl_add_fin, zero_add]

theorem getSummary_ofCategory (H : Host) (expenses : List Expense) (c : String)
    (hc : c ≠ "") :
    (getSummary H expenses (Filter.ofCategory c)).expenses =
      expenses.filter fun e => decide (e.category = .str c) := by
  have hfun : (fun e : Expense => e.category.strictEq (.str c)) =
      fun e => decide (e.category = .str c) := by
    funext e
    cases hcat : e.category <;> simp [QVal.strictEq]
  simp [getSummary, Filter.ofCategory, QVal.toBoolean, hc, hfun]

/-- C8: for a non-empty category string `c`, `getSummary({ category: c })`
returns as `expenses` exactly the stored records whose category equals `c`, in
the order of the store, and as `total` the sum of `amount` over exactly those
records, added from 0; the total is 0 when there are none, and it is the exact
sum of the amounts when they are all finite. -/
theorem getSummary_category (H : Host) (expenses : List Expense) (c : String)
    (hc : c ≠ "") :
    (getSummary H expenses (Filter.ofCategory c)).expenses =
      expenses.filter (fun e => decide (e.category = .str c)) ∧
    (∀ e, e ∈ (getSummary H expenses (Filter.ofCategory c)).expenses ↔
      e ∈ expenses ∧ e.category = .str c) ∧
    (getSummary H expenses (Filter.ofCategory c)).total =
      JSNum.sum ((expenses.filter fun e => decide (e.category = .str c)).map Expense.amount) ∧
    ((∀ e ∈ expenses, e.category ≠ .str c) →
      (getSummary H expenses (Filter.ofCategory c)).total = .fin 0) ∧
    (∀ qs : List ℚ,
      (expenses.filter fun e => decide (e.category = .str c)).map Expense.amount =
          qs.map JSNum.fin →
        (getSummary H expenses (Filter.ofCategory c)).total = .fin qs.sum) := by
  have hexp := getSummary_ofCategory H expenses c hc
  have htot := getSummary_total H expenses (Filter.ofCategory c)
  rw [hexp] at htot
  refine ⟨hexp, ?_, htot, ?_, ?_⟩
  · intro e
    rw [hexp]
    simp
  · intro hnone
    rw [htot]
    have : (expenses.filter fun e => decide (e.category = .str c)) = [] := by
      rw [List.filter_eq_nil_iff]
      intro e he
      simpa using hnone e he
    rw [this]
    rfl
  · intro qs hqs
    rw [htot, hqs, sum_fin]

theorem getSummary_category_witness :
    (getSummary refHost sampleExpenses (Filter.ofCategory "Food")).expenses =
      sampleExpenses.filter (fun e => decide (e.category = .str "Food")) ∧
    (getSummary refHost sampleExpenses (Filter.ofCategory "Food")).total = .fin 75 := by
  have h := getSummary_category refHost sampleExpenses "Food" (by decide)
  refine ⟨h.1, ?_⟩
  rw [h.2.2.2.2 [50, 25] (by decide)]
  norm_num

/-- C10: the `expenses` returned by `getSummary` are a subsequence of the store
in insertion order, so filtering never reorders, duplicates or alters a
record; with the empty filter the result is the whole store, in insertion
order. -/
theorem getSummary_sublist (H : Host) (expenses : List Expense) (f : Filter) :
    (getSummary H expenses f).expenses.Sublist expenses ∧
    (∀ e, (getSummary H expenses f).expenses.count e ≤ expenses.count e) ∧
    (getSummary H expenses Filter.empty).expenses = expenses := by
  refine ⟨?_, ?_, ?_⟩
  · simp only [getSummary]
    split_ifs
    · exact (List.filter_sublist _).trans (List.filter_sublist _)
    · exact List.filter_sublist _
    · exact List.filter_sublist _
    · exact List.Sublist.refl _
  · intro e
    apply List.Sublist.count_le
    simp only [getSummary]
    split_ifs
    · exact (List.filter_sublist _).trans (List.filter_sublist _)
    · exact List.filter_sublist _
    · exact List.filter_sublist _
    · exact List.Sublist.refl _
  · simp [getSummary, Filter.empty, QVal.toBoolean]

/-! ### The date range -/

theorem inDateRange_eq_withinRange (H : Host) (startDate endDate : QVal) (e : Expense)
    (he : newDate H e.date ≠ none) (hs : BoundParses H startDate)
    (hen : BoundParses H endDate) :
    inDateRange H startDate endDate e = withinRange H startDate endDate e := by
  obtain ⟨t, ht⟩ := Option.ne_none_iff_exists'.1 he
  have key : ∀ b : QVal, BoundParses H b →
      (b.toBoolean && dateLt (some t) (newDate H b)) =
          !(!b.toBoolean || dateGe (some t) (newDate H b)) ∧
      (b.toBoolean && dateGt (some t) (newDate H b)) =
          !(!b.toBoolean || dateLe (some t) (newDate H b)) := by
    intro b hb
    cases hbt : b.toBoolean
    · simp
    · obtain ⟨u, hu⟩ := Option.ne_none_iff_exists'.1 (hb hbt)
      rw [hu]
      simp only [dateLt, dateGt, dateGe, dateLe, Bool.true_and, Bool.not_true, Bool.false_or]
      constructor
      · by_cases h : t < u <;> simp [h, not_le.2, le_of_not_lt]
      · by_cases h : t > u <;> simp [h, not_le.2, le_of_not_lt]
  simp only [inDateRange, withinRange, ht]
  rw [(key startDate hs).1, (key endDate hen).2]
  cases (!startDate.toBoolean || dateGe (some t) (newDate H startDate)) <;>
    cases (!endDate.toBoolean || dateLe (some t) (newDate H endDate)) <;> rfl

theorem getSummary_expenses_eq (H : Host) (expenses : List Expense) (f : Filter) :
    (getSummary H expenses f).expenses =
      expenses.filter fun e =>
        matchesCategory f.category e &&
          ((!f.startDate.toBoolean && !f.endDate.toBoolean) ||
            inDateRange H f.startDate f.endDate e) := by
  simp only [getSummary, matchesCategory]
  cases hc : f.category.toBoolean <;> cases hs : f.startDate.toBoolean <;>
    cases he : f.endDate.toBoolean <;> simp [List.filter_filter, Bool.and_comm]

/-- C9, as stated, fails: with the filter `{ startDate: "abc" }`, whose start
date does not parse, the record dated `2024-01-10` is kept by `getSummary`,
although its date is not `>=` the start date. -/
theorem unparseable_start_keeps_record :
    (getSummary refHost sampleExpenses badStartFilter).expenses = sampleExpenses ∧
    ({ id := 1, category := .str "Food", amount := .fin 50, date := .str "2024-01-10" } :
        Expense) ∈ (getSummary refHost sampleExpenses badStartFilter).expenses ∧
    badStartFilter.startDate.toBoolean = true ∧
    dateGe (newDate refHost (.str "2024-01-10")) (newDate refHost badStartFilter.startDate) =
      false := by
  refine ⟨by decide, by decide, by decide, by decide⟩

/-- C9, amended: when the dates of the stored records parse and each bound of
the filter that is given parses, `getSummary` keeps exactly the records (of the
filter's category, when one is given) whose date is `>=` the start date, when
given, and `<=` the end date, when given. Both ends are inclusive: such a
record dated exactly the start date is kept when it passes the end bound, and
one dated exactly the end date is kept when it passes the start bound. -/
theorem getSummary_date_range_inclusive (H : Host) (expenses : List Expense) (f : Filter)
    (hrec : ∀ e ∈ expenses, newDate H e.date ≠ none)
    (hstart : BoundParses H f.startDate) (hend : BoundParses H f.endDate) :
    (getSummary H expenses f).expenses =
      expenses.filter (fun e =>
        matchesCategory f.category e && withinRange H f.startDate f.endDate e) ∧
    (∀ e ∈ expenses, matchesCategory f.category e = true →
      newDate H e.date = newDate H f.startDate →
      (!f.endDate.toBoolean || dateLe (newDate H e.date) (newDate H f.endDate)) = true →
      e ∈ (getSummary H expenses f).expenses) ∧
    (∀ e ∈ expenses, matchesCategory f.category e = true →
      newDate H e.date = newDate H f.endDate →
      (!f.startDate.toBoolean || dateGe (newDate H e.date) (newDate H f.startDate)) = true →
      e ∈ (getSummary H expenses f).expenses) := by
  have hexp : (getSummary H expenses f).expenses =
      expenses.filter (fun e =>
        matchesCategory f.category e && withinRange H f.startDate f.endDate e) := by
    rw [getSummary_expenses_eq]
    apply List.filter_congr
    intro e he
    rw [inDateRange_eq_withinRange H _ _ e (hrec e he) hstart hend]
    cases hs : f.startDate.toBoolean <;> cases hen : f.endDate.toBoolean <;>
      simp [withinRange, hs, hen]
  have hrefl : ∀ e ∈ expenses, dateGe (newDate H e.date) (newDate H e.date) = true ∧
      dateLe (newDate H e.date) (newDate H e.date) = true := by
    intro e he
    obtain ⟨t, ht⟩ := Option.ne_none_iff_exists'.1 (hrec e he)
    rw [ht]
    simp [dateGe, dateLe]
  refine ⟨hexp, ?_, ?_⟩
  · intro e he hc hd hle
    rw [hexp, List.mem_filter]
    refine ⟨he, ?_⟩
    have := (hrefl e he).1
    rw [Bool.and_eq_true, withinRange, Bool.and_eq_true]
    refine ⟨hc, ?_, hle⟩
    rw [← hd, this, Bool.or_true]
  · intro e he hc hd hge
    rw [hexp, List.mem_filter]
    refine ⟨he, ?_⟩
    have := (hrefl e he).2
    rw [Bool.and_eq_true, withinRange, Bool.and_eq_true]
    refine ⟨hc, hge, ?_⟩
    rw [← hd, this, Bool.or_true]

theorem getSummary_date_range_inclusive_witness :
    (getSummary refHost sampleExpenses januaryFilter).expenses =
      [{ id := 1, category := .str "Food", amount := .fin 50, date := .str "2024-01-10" },
       { id := 2, category := .str "Travel", amount := .fin 100, date := .str "2024-01-15" }] := by
  rw [(getSummary_date_range_inclusive refHost sampleExpenses januaryFilter
    (by decide) (by unfold BoundParses; decide) (by unfold BoundParses; decide)).1]
  decide

/-! ### Dates that do not parse -/

theorem dateLt_none_right (a : Option Int) : dateLt a none = false := by
  cases a <;> rfl

theorem dateGt_none_right (a : Option Int) : dateGt a none = false := by
  cases a <;> rfl

theorem inDateRange_of_invalid (H : Host) (startDate endDate : QVal) (e : Expense)
    (h : newDate H e.date = none) : inDateRange H startDate endDate e = true := by
  simp [inDateRange, h, dateLt, dateGt]

theorem getSummary_ext (H : Host) (expenses : List Expense) (f g : Filter)
    (h : (getSummary H expenses f).expenses = (getSummary H expenses g).expenses) :
    getSummary H expenses f = getSummary H expenses g := by
  have hf := getSummary_total H expenses f
  have hg := getSummary_total H expenses g
  rw [h, ← hg] at hf
  cases hx : getSummary H expenses f
  cases hy : getSummary H expenses g
  rw [hx, hy] at h hf
  simp only at h hf
  rw [h, hf]

theorem sampleExpenses_amounts :
    sampleExpenses.map Expense.amount = [50, 100, 25].map JSNum.fin := by
  decide

/-- C11, as stated, fails: with the filter `{ endDate: "abc" }`, whose end date
is a non-empty string that does not parse, `getSummary` returns the whole
store, three records with total 175, not an empty result with total 0. -/
theorem unparseable_bound_matches_all :
    badEndFilter.endDate = .str "abc" ∧ refHost.dateParse "abc" = none ∧
    (getSummary refHost sampleExpenses badEndFilter).expenses = sampleExpenses ∧
    (getSummary refHost sampleExpenses badEndFilter).expenses ≠ [] ∧
    (getSummary refHost sampleExpenses badEndFilter).total = .fin 175 := by
  have hexp : (getSummary refHost sampleExpenses badEndFilter).expenses = sampleExpenses := by
    decide
  refine ⟨rfl, by decide, hexp, by rw [hexp]; decide, ?_⟩
  rw [getSummary_total, hexp, sampleExpenses_amounts, sum_fin]
  norm_num

/-- C11, amended: `getSummary` does not throw, and a start date or end date
that does not parse is ignored: the result is the one of the same filter
without that bound, so no record is dropped on its account. -/
theorem getSummary_ignores_unparsed_bound (H : Host) (expenses : List Expense) (f : Filter) :
    (newDate H f.startDate = none →
      getSummary H expenses f = getSummary H expenses { f with startDate := .undefined }) ∧
    (newDate H f.endDate = none →
      getSummary H expenses f = getSummary H expenses { f with endDate := .undefined }) := by
  have hu : QVal.undefined.toBoolean = false := rfl
  constructor
  · intro h
    apply getSummary_ext
    rw [getSummary_expenses_eq, getSummary_expenses_eq]
    apply List.filter_congr
    intro e _
    cases hs : f.startDate.toBoolean <;> cases he : f.endDate.toBoolean <;>
      simp [inDateRange, h, dateLt_none_right, hu, hs, he]
  · intro h
    apply getSummary_ext
    rw [getSummary_expenses_eq, getSummary_expenses_eq]
    apply List.filter_congr
    intro e _
    cases hs : f.startDate.toBoolean <;> cases he : f.endDate.toBoolean <;>
      simp [inDateRange, h, dateGt_none_right, hu, hs, he]

theorem getSummary_ignores_unparsed_bound_witness :
    getSummary refHost sampleExpenses badEndFilter =
      getSummary refHost sampleExpenses { badEndFilter with endDate := .undefined } :=
  (getSummary_ignores_unparsed_bound refHost sampleExpenses badEndFilter).2 (by decide)

/-- C12, as stated, fails: with the filter
`{ startDate: "2024-01-10", endDate: "2024-01-15" }` the stored record whose
date `abc` does not parse is kept by `getSummary`, and its amount 7 is in the
total 57. -/
theorem unparsed_record_is_kept :
    newDate refHost (.str "abc") = none ∧
    (getSummary refHost strayExpenses januaryFilter).expenses =
      [{ id := 1, category := .str "Food", amount := .fin 50, date := .str "2024-01-10" },
       { id := 2, category := .str "Food", amount := .fin 7, date := .str "abc" }] ∧
    (getSummary refHost strayExpenses januaryFilter).total = .fin 57 := by
  have hexp : (getSummary refHost strayExpenses januaryFilter).expenses =
      [{ id := 1, category := .str "Food", amount := .fin 50, date := .str "2024-01-10" },
       { id := 2, category := .str "Food", amount := .fin 7, date := .str "abc" }] := by
    decide
  refine ⟨by decide, hexp, ?_⟩
  rw [getSummary_total, hexp]
  have : ([{ id := 1, category := .str "Food", amount := .fin 50, date := .str "2024-01-10" },
       { id := 2, category := .str "Food", amount := .fin 7, date := .str "abc" }] :
        List Expense).map Expense.amount = [50, 7].map JSNum.fin := by
    decide
  rw [this, sum_fin]
  norm_num

/-- C12, amended: for every store and every filter, `getSummary` keeps every
record whose date fails to parse, provided it is of the filter's category when
one is given: the date bounds never drop it, and its amount is part of the
total, which is the sum over the returned records. -/
theorem getSummary_keeps_unparsed_record (H : Host) (expenses : List Expense) (f : Filter)
    (e : Expense) (he : e ∈ expenses) (hdate : newDate H e.date = none)
    (hcat : matchesCategory f.category e = true) :
    e ∈ (getSummary H expenses f).expenses ∧
    (getSummary H expenses f).total =
      JSNum.sum ((getSummary H expenses f).expenses.map Expense.amount) := by
  refine ⟨?_, getSummary_total H expenses f⟩
  rw [getSummary_expenses_eq, List.mem_filter]
  refine ⟨he, ?_⟩
  rw [hcat, inDateRange_of_invalid H _ _ e hdate]
  simp

theorem getSummary_keeps_unparsed_record_witness :
    ({ id := 2, category := .str "Food", amount := .fin 7, date := .str "abc" } : Expense) ∈
      (getSummary refHost strayExpenses januaryFilter).expenses :=
  (getSummary_keeps_unparsed_record refHost strayExpenses januaryFilter
    { id := 2, category := .str "Food", amount := .fin 7, date := .str "abc" }
    (by decide) (by decide) (by decide)).1

/-! ### The analysis: totals by category -/

theorem strictEq_str (v : QVal) (c : String) :
    v.strictEq (.str c) = decide (v = .str c) := by
  cases v <;> simp [QVal.strictEq]

theorem totalByCategory_eq (expenses : List Expense) :
    totalByCategory expenses =
      predefinedCategories.map fun c =>
        { category := c,
          total := JSNum.sum
            ((expenses.filter fun e => decide (e.category = .str c)).map Expense.amount) } := by
  unfold totalByCategory
  apply List.map_congr_left
  intro c _
  simp only [strictEq_str, JSNum.sum, foldl_add_eq_sum]

/-- C13: `totalByCategory` has exactly five entries, one per category of the
registry in registry order (Food, Travel, Entertainment, Shopping, Utilities),
and the total of each entry is the sum of `amount` over the stored records of
that category, which is 0 when there is none; all five totals are 0 for the
empty store. -/
theorem totalByCategory_zero_filled (expenses : List Expense) :
    (totalByCategory expenses).length = 5 ∧
    (totalByCategory expenses).map CategoryTotal.category =
      ["Food", "Travel", "Entertainment", "Shopping", "Utilities"] ∧
    (∀ entry ∈ totalByCategory expenses,
      entry.total = JSNum.sum
        ((expenses.filter fun e => decide (e.category = .str entry.category)).map
          Expense.amount)) ∧
    (∀ entry ∈ totalByCategory expenses,
      (∀ e ∈ expenses, e.category ≠ .str entry.category) → entry.total = .fin 0) ∧
    (totalByCategory []).map CategoryTotal.total =
      [.fin 0, .fin 0, .fin 0, .fin 0, .fin 0] := by
  have hentry : ∀ entry ∈ totalByCategory expenses,
      entry.total = JSNum.sum
        ((expenses.filter fun e => decide (e.category = .str entry.category)).map
          Expense.amount) := by
    intro entry hmem
    rw [totalByCategory_eq, List.mem_map] at hmem
    obtain ⟨c, _, rfl⟩ := hmem
    rfl
  refine ⟨by simp [totalByCategory, predefinedCategories], ?_, hentry, ?_, by decide⟩
  · simp [totalByCategory, predefinedCategories]
  · intro entry hmem hnone
    rw [hentry entry hmem]
    have : (expenses.filter fun e => decide (e.category = .str entry.category)) = [] := by
      rw [List.filter_eq_nil_iff]
      intro e he
      simpa using hnone e he
    rw [this]
    rfl

/-! ### The analysis: the object of monthly totals -/

theorem getProp_nil (key : String) : getProp [] key = none := rfl

theorem getProp_cons (p : String × JSNum) (m : MonthlyTotals) (key : String) :
    getProp (p :: m) key = if key = p.1 then some p.2 else getProp m key := by
  obtain ⟨k, v⟩ := p
  simp only [getProp, List.lookup_cons]
  by_cases h : key = k
  · simp [h]
  · have : (key == k) = false := by simpa using h
    simp [h, this]

theorem getProp_eq_none (m : MonthlyTotals) (key : String) (h : ∀ p ∈ m, p.1 ≠ key) :
    getProp m key = none := by
  induction m with
  | nil => rfl
  | cons p m ih =>
    rw [getProp_cons, if_neg (fun e => h p (List.mem_cons_self _ _) e.symm)]
    exact ih fun q hq => h q (List.mem_cons_of_mem _ hq)

theorem getProp_map_of_ne (m : MonthlyTotals) (k0 key : String) (v0 : JSNum) (h : key ≠ k0) :
    getProp (m.map fun p => if p.1 = k0 then (k0, v0) else p) key = getProp m key := by
  induction m with
  | nil => rfl
  | cons p m ih =>
    rw [List.map_cons, getProp_cons, getProp_cons, ih]
    by_cases hp : p.1 = k0
    · rw [if_pos hp, if_neg h, if_neg (fun e => h (e.trans hp))]
    · rw [if_neg hp]

theorem getProp_map_self (m : MonthlyTotals) (k0 : String) (v0 : JSNum)
    (h : ∃ p ∈ m, p.1 = k0) :
    getProp (m.map fun p => if p.1 = k0 then (k0, v0) else p) k0 = some v0 := by
  induction m with
  | nil => obtain ⟨p, hp, _⟩ := h; cases hp
  | cons p m ih =>
    rw [List.map_cons, getProp_cons]
    by_cases hp : p.1 = k0
    · rw [if_pos hp, if_pos rfl]
    · rw [if_neg hp, if_neg (fun e => hp e.symm)]
      apply ih
      obtain ⟨q, hq, hk⟩ := h
      rcases List.mem_cons.1 hq with rfl | hq
      · exact absurd hk hp
      · exact ⟨q, hq, hk⟩

theorem getProp_append_single (m : MonthlyTotals) (k0 key : String) (v0 : JSNum) :
    getProp (m ++ [(k0, v0)]) key =
      (getProp m key).or (if key = k0 then some v0 else none) := by
  induction m with
  | nil =>
    rw [List.nil_append, getProp_cons, getProp_nil]
    by_cases h : key = k0 <;> simp [h]
  | cons p m ih =>
    rw [List.cons_append, getProp_cons, getProp_cons, ih]
    by_cases hp : key = p.1 <;> simp [hp]

theorem any_key_iff (m : MonthlyTotals) (k0 : String) :
    m.any (fun p => p.1 == k0) = true ↔ ∃ p ∈ m, p.1 = k0 := by
  simp [List.any_eq_true]

theorem getProp_setProp (m : MonthlyTotals) (k0 key : String) (v0 : JSNum) :
    getProp (setProp m k0 v0) key = if key = k0 then some v0 else getProp m key := by
  unfold setProp
  by_cases hany : m.any (fun p => p.1 == k0) = true
  · rw [if_pos hany]
    by_cases h : key = k0
    · rw [if_pos h, h]
      exact getProp_map_self m k0 v0 ((any_key_iff m k0).1 hany)
    · rw [if_neg h]
      exact getProp_map_of_ne m k0 key v0 h
  · rw [if_neg hany, getProp_append_single]
    by_cases h : key = k0
    · rw [if_pos h, if_pos h, h, getProp_eq_none m k0]
      · rfl
      · intro p hp e
        exact hany ((any_key_iff m k0).2 ⟨p, hp, e⟩)
    · rw [if_neg h, if_neg h]
      cases getProp m key <;> rfl

theorem setProp_keys_nodup (m : MonthlyTotals) (k0 : String) (v0 : JSNum)
    (h : (m.map Prod.fst).Nodup) : ((setProp m k0 v0).map Prod.fst).Nodup := by
  unfold setProp
  by_cases hany : m.any (fun p => p.1 == k0) = true
  · rw [if_pos hany]
    have : (m.map fun p => if p.1 = k0 then (k0, v0) else p).map Prod.fst = m.map Prod.fst := by
      rw [List.map_map]
      apply List.map_congr_left
      intro p _
      by_cases hp : p.1 = k0 <;> simp [hp]
    rw [this]
    exact h
  · rw [if_neg hany, List.map_append, List.map_singleton]
    apply List.Nodup.append h (List.nodup_singleton _)
    rw [List.disjoint_singleton]
    intro hm
    obtain ⟨p, hp, e⟩ := List.mem_map.1 hm
    exact hany ((any_key_iff m k0).2 ⟨p, hp, e⟩)

theorem mem_iff_getProp (m : MonthlyTotals) (h : (m.map Prod.fst).Nodup) (key : String)
    (v : JSNum) : (key, v) ∈ m ↔ getProp m key = some v := by
  induction m with
  | nil => simp [getProp_nil]
  | cons p m ih =>
    rw [List.map_cons, List.nodup_cons] at h
    rw [getProp_cons, List.mem_cons]
    by_cases hk : key = p.1
    · rw [if_pos hk]
      constructor
      · rintro (e | hm)
        · rw [← e]
        · exact absurd (hk ▸ List.mem_map_of_mem Prod.fst hm) h.1
      · intro e
        left
        rw [Option.some.injEq] at e
        rw [hk, ← e]
    · rw [if_neg hk, ← ih h.2]
      constructor
      · rintro (e | hm)
        · exact absurd (congrArg Prod.fst e) hk
        · exact hm
      · exact Or.inr

theorem mem_keys_iff_getProp (m : MonthlyTotals) (key : String) :
    key ∈ m.map Prod.fst ↔ getProp m key ≠ none := by
  induction m with
  | nil => simp [getProp_nil]
  | cons p m ih =>
    rw [List.map_cons, List.mem_cons, getProp_cons, ih]
    by_cases hk : key = p.1 <;> simp [hk]

/-! ### Records of a reachable store -/

theorem wellFormed_of_accepted (H : Host) (e : Expense)
    (h : validateExpense H e.toCandidate = .accepted) : WellFormed H e := by
  have hrej : ∀ r : String, Validation.rejected r ≠ .accepted := by
    intro r hr
    simp [Validation.rejected, Validation.accepted] at hr
  rcases validateExpense_cases H e.toCandidate with
    ⟨_, he⟩ | ⟨_, _, he⟩ | ⟨_, _, _, he⟩ | ⟨n1, n2, n3, _⟩
  · exact absurd (he.symm.trans h) (hrej _)
  · exact absurd (he.symm.trans h) (hrej _)
  · exact absurd (he.symm.trans h) (hrej _)
  · refine ⟨?_, ?_, ?_⟩
    · have : e.category ∈ predefinedCategories.map QVal.str := by
        by_contra hc
        exact n1 hc
      obtain ⟨c, hc, e1⟩ := List.mem_map.1 this
      exact ⟨c, hc, e1.symm⟩
    · have hamt : (e.toCandidate).amount = some e.amount := rfl
      rw [hamt] at n2
      cases ha : e.amount with
      | nan => exact absurd (Or.inr (Or.inl (by rw [ha]))) n2
      | posInf => exact Or.inl rfl
      | negInf => exact absurd (Or.inr (Or.inr ⟨_, by rw [ha], Or.inl rfl⟩)) n2
      | fin q =>
        refine Or.inr ⟨q, ?_, rfl⟩
        by_contra hq
        exact n2 (Or.inr (Or.inr ⟨_, by rw [ha], Or.inr ⟨q, rfl, not_lt.1 hq⟩⟩))
    · have hd : (e.toCandidate).date = e.date := rfl
      rw [hd] at n3
      intro hnone
      apply n3
      cases hdate : e.date with
      | undefined => exact Or.inl rfl
      | str s =>
        right; right
        rw [hdate] at hnone
        exact hnone
      | obj t =>
        right; right
        rw [hdate] at hnone
        exact hnone

theorem reachable_wellFormed (H : Host) (expenses : List Expense) (h : Reachable H expenses) :
    ∀ e ∈ expenses, WellFormed H e :=
  fun e he => wellFormed_of_accepted H e (reachable_valid H expenses h e he)

theorem runAdds_reachable (H : Host) (queries : List AddQuery) (expenses : List Expense)
    (h : Reachable H expenses) : Reachable H (runAdds H expenses queries) := by
  induction queries generalizing expenses with
  | nil => exact h
  | cons q qs ih => exact ih _ (Reachable.add expenses q h)

/-! ### Sums of positive amounts -/

theorem add_eq_add (a b : JSNum) : a.add b = a + b := rfl

theorem fin_zero_eq : JSNum.fin 0 = 0 := rfl

theorem sum_eq_list_sum (xs : List JSNum) : JSNum.sum xs = xs.sum := by
  rw [JSNum.sum, List.sum_eq_foldl]
  rfl

theorem sum_append_single (xs : List JSNum) (a : JSNum) :
    JSNum.sum (xs ++ [a]) = (JSNum.sum xs).add a := by
  simp [JSNum.sum, List.foldl_append]

theorem positive_add (a b : JSNum) (ha : a.Positive) (hb : b.Positive) : (a + b).Positive := by
  rcases ha with rfl | ⟨p, hp, rfl⟩ <;> rcases hb with rfl | ⟨q, hq, rfl⟩
  · exact Or.inl rfl
  · exact Or.inl rfl
  · exact Or.inl rfl
  · exact Or.inr ⟨p + q, add_pos hp hq, rfl⟩

theorem positive_toBoolean (a : JSNum) (ha : a.Positive) : a.toBoolean = true := by
  rcases ha with rfl | ⟨p, hp, rfl⟩
  · rfl
  · simp [JSNum.toBoolean, ne_of_gt hp]

theorem positive_ne_zero (a : JSNum) (ha : a.Positive) : a ≠ .fin 0 := by
  rcases ha with rfl | ⟨p, hp, rfl⟩
  · intro h; cases h
  · intro h
    rw [JSNum.fin.injEq] at h
    exact absurd h (ne_of_gt hp)

theorem list_sum_positive (xs : List JSNum) (hne : xs ≠ []) (h : ∀ x ∈ xs, x.Positive) :
    xs.sum.Positive := by
  induction xs with
  | nil => exact absurd rfl hne
  | cons a xs ih =>
    rw [List.sum_cons]
    by_cases hx : xs = []
    · rw [hx, List.sum_nil, add_zero]
      exact h a (List.mem_cons_self _ _)
    · exact positive_add _ _ (h a (List.mem_cons_self _ _))
        (ih hx fun x hm => h x (List.mem_cons_of_mem _ hm))

theorem orZero_sum (es : List Expense) (h : ∀ e ∈ es, e.amount.Positive) :
    orZero (if es = [] then none else some (JSNum.sum (es.map Expense.amount))) =
      JSNum.sum (es.map Expense.amount) := by
  by_cases hx : es = []
  · rw [if_pos hx, hx]; rfl
  · rw [if_neg hx]
    have hpos : (es.map Expense.amount).sum.Positive := by
      apply list_sum_positive
      · simpa using hx
      · intro x hm
        obtain ⟨y, hy, rfl⟩ := List.mem_map.1 hm
        exact h y hy
    have := positive_toBoolean _ hpos
    rw [← sum_eq_list_sum] at this
    simp [orZero, this]

/-! ### The analysis: totals by month -/

theorem monthOf_of_parsed (H : Host) (e : Expense) (t : Int) (h : newDate H e.date = some t) :
    monthOf H e = .ok (sliceTo (isoString t) 7) ∧
      monthKey H e = some (sliceTo (isoString t) 7) := by
  simp [monthOf, monthKey, h, toISOString, Except.map]

theorem monthOf_of_invalid (H : Host) (e : Expense) (h : newDate H e.date = none) :
    monthOf H e = .error "RangeError: Invalid time value" := by
  simp [monthOf, h, toISOString, Except.map]

theorem monthOf_eq_ok (H : Host) (e : Expense) (h : newDate H e.date ≠ none) :
    monthOf H e = .ok ((monthKey H e).getD "") ∧
      monthKey H e = some ((monthKey H e).getD "") := by
  obtain ⟨t, ht⟩ := Option.ne_none_iff_exists'.1 h
  have := monthOf_of_parsed H e t ht
  rw [this.1, this.2]
  exact ⟨rfl, rfl⟩

theorem monthlyTotals_foldlM (H : Host) (month : Expense → String) (es : List Expense)
    (acc : MonthlyTotals) (h : ∀ e ∈ es, monthOf H e = .ok (month e)) :
    es.foldlM
        (fun acc e => do
          let month ← monthOf H e
          pure (setProp acc month ((orZero (getProp acc month)).add e.amount)))
        acc =
      (.ok (monthlyFold month es acc) : Except String MonthlyTotals) := by
  induction es generalizing acc with
  | nil => rfl
  | cons e es ih =>
    rw [List.foldlM_cons, h e (List.mem_cons_self _ _)]
    exact ih _ fun x hx => h x (List.mem_cons_of_mem _ hx)

theorem monthlyTotals_eq_fold (H : Host) (es : List Expense)
    (h : ∀ e ∈ es, newDate H e.date ≠ none) :
    monthlyTotals H es = .ok (monthlyFold (fun e => (monthKey H e).getD "") es []) :=
  monthlyTotals_foldlM H _ es [] fun e he => (monthOf_eq_ok H e (h e he)).1

theorem monthlyFold_append_single (month : Expense → String) (es : List Expense) (e : Expense) :
    monthlyFold month (es ++ [e]) [] =
      setProp (monthlyFold month es []) (month e)
        ((orZero (getProp (monthlyFold month es []) (month e))).add e.amount) := by
  simp [monthlyFold, List.foldl_append]

theorem monthlyFold_spec (month : Expense → String) (es : List Expense)
    (h : ∀ e ∈ es, e.amount.Positive) :
    ((monthlyFold month es []).map Prod.fst).Nodup ∧
    ∀ key, getProp (monthlyFold month es []) key =
      if (es.filter fun e => decide (month e = key)) = [] then none
      else some (JSNum.sum ((es.filter fun e => decide (month e = key)).map Expense.amount)) := by
  induction es using List.reverseRecOn with
  | nil => exact ⟨List.nodup_nil, fun key => rfl⟩
  | append_singleton es e ih =>
    have hes : ∀ x ∈ es, x.amount.Positive := fun x hx => h x (List.mem_append_left _ hx)
    obtain ⟨hnd, hget⟩ := ih hes
    rw [monthlyFold_append_single]
    refine ⟨setProp_keys_nodup _ _ _ hnd, ?_⟩
    intro key
    rw [getProp_setProp, List.filter_append]
    by_cases hk : key = month e
    · subst hk
      have hor := orZero_sum (es.filter fun x => decide (month x = month e))
        fun y hy => hes y (List.mem_of_mem_filter hy)
      rw [if_pos rfl, hget, hor]
      simp [sum_append_single]
    · have hne : ¬month e = key := fun x => hk x.symm
      rw [if_neg hk, hget]
      simp [hne]

/-- C14, as stated, fails: the request `/add-expense?category=Food&amount=5&date=2024`
is accepted, and the analysis files the record under the key `2024-01`, the
month of the parsed date, while the first 7 characters of its date string are
`2024`: the key is not a prefix of the date of any stored record. -/
theorem month_key_is_not_date_prefix :
    runAdds refHost [] [yearQuery] =
      [{ id := 1, category := .str "Food", amount := .fin 5, date := .str "2024" }] ∧
    Reachable refHost (runAdds refHost [] [yearQuery]) ∧
    monthlyTotals refHost (runAdds refHost [] [yearQuery]) = .ok [("2024-01", .fin 5)] ∧
    (∀ e ∈ runAdds refHost [] [yearQuery], datePrefix e = "2024") ∧
    (∀ e ∈ runAdds refHost [] [yearQuery], datePrefix e ≠ "2024-01") := by
  have hrun : runAdds refHost [] [yearQuery] =
      [{ id := 1, category := .str "Food", amount := .fin 5, date := .str "2024" }] := by
    decide
  refine ⟨hrun, runAdds_reachable refHost _ [] Reachable.empty, ?_, ?_, ?_⟩
  · rw [hrun, monthlyTotals_eq_fold refHost _ (by decide)]
    have hk : monthKey refHost
        { id := 1, category := .str "Food", amount := .fin 5, date := .str "2024" } =
          some "2024-01" := by decide
    simp [monthlyFold, hk, setProp, getProp, orZero, add_eq_add, fin_zero_eq]
  · rw [hrun]; decide
  · rw [hrun]; decide

/-- C14, amended: for every store reachable by requests to `/add-expense`, the
analysis computes `monthlyTotals` without error, and it maps each key to the
sum of `amount` over the records whose parsed date has that key as the first 7
characters of its ISO string (its year and month in UTC). Its keys are exactly
the months of the stored records, each appearing once, with no entry for a
month that has no record. -/
theorem monthlyTotals_by_iso_month (H : Host) (expenses : List Expense)
    (h : Reachable H expenses) :
    ∃ monthly : MonthlyTotals,
      monthlyTotals H expenses = .ok monthly ∧
      (monthly.map Prod.fst).Nodup ∧
      (∀ key, key ∈ monthly.map Prod.fst ↔ ∃ e ∈ expenses, monthKey H e = some key) ∧
      ∀ key total, (key, total) ∈ monthly →
        total = JSNum.sum
          ((expenses.filter fun e => decide (monthKey H e = some key)).map Expense.amount) := by
  have hwf := reachable_wellFormed H expenses h
  have hdates : ∀ e ∈ expenses, newDate H e.date ≠ none := fun e he => (hwf e he).2.2
  have hkey : ∀ e ∈ expenses, ∀ key,
      decide ((monthKey H e).getD "" = key) = decide (monthKey H e = some key) := by
    intro e he key
    have hk := (monthOf_eq_ok H e (hdates e he)).2
    by_cases hx : (monthKey H e).getD "" = key
    · rw [decide_eq_true hx, hk, decide_eq_true (by rw [hx])]
    · have : ¬monthKey H e = some key := by
        intro hy
        apply hx
        rw [hy]
        rfl
      rw [decide_eq_false hx, decide_eq_false this]
  have hfilter : ∀ key,
      (expenses.filter fun e => decide ((monthKey H e).getD "" = key)) =
        expenses.filter fun e => decide (monthKey H e = some key) :=
    fun key => List.filter_congr fun e he => hkey e he key
  obtain ⟨hnd, hget⟩ := monthlyFold_spec (fun e => (monthKey H e).getD "") expenses
    fun e he => (hwf e he).2.1
  refine ⟨_, monthlyTotals_eq_fold H expenses hdates, hnd, ?_, ?_⟩
  · intro key
    rw [mem_keys_iff_getProp, hget, hfilter]
    by_cases hx : (expenses.filter fun e => decide (monthKey H e = some key)) = []
    · rw [if_pos hx]
      constructor
      · intro hc; exact absurd rfl hc
      · rintro ⟨e, he, hk⟩
        have : e ∈ expenses.filter fun e => decide (monthKey H e = some key) :=
          List.mem_filter.2 ⟨he, decide_eq_true hk⟩
        rw [hx] at this
        cases this
    · rw [if_neg hx]
      constructor
      · intro _
        obtain ⟨e, he⟩ := List.exists_mem_of_ne_nil _ hx
        obtain ⟨he1, he2⟩ := List.mem_filter.1 he
        exact ⟨e, he1, of_decide_eq_true he2⟩
      · intro _ hc
        cases hc
  · intro key total hmem
    rw [mem_iff_getProp _ hnd, hget, hfilter] at hmem
    by_cases hx : (expenses.filter fun e => decide (monthKey H e = some key)) = []
    · rw [if_pos hx] at hmem; cases hmem
    · rw [if_neg hx, Option.some.injEq] at hmem
      exact hmem.symm

theorem monthlyTotals_by_iso_month_witness :
    ∃ monthly : MonthlyTotals,
      monthlyTotals refHost (runAdds refHost [] scenarioQueries) = .ok monthly ∧
      (monthly.map Prod.fst).Nodup ∧
      (runAdds refHost [] scenarioQueries).length = 3 := by
  obtain ⟨monthly, h1, h2, _⟩ := monthlyTotals_by_iso_month refHost _
    (runAdds_reachable refHost scenarioQueries [] Reachable.empty)
  exact ⟨monthly, h1, h2, by decide⟩

/-! ### The end-to-end scenario -/

theorem getSummary_food_sample (H : Host) :
    (getSummary H sampleExpenses (Filter.ofCategory "Food")).expenses =
      [{ id := 1, category := .str "Food", amount := .fin 50, date := .str "2024-01-10" },
       { id := 3, category := .str "Food", amount := .fin 25, date := .str "2024-02-01" }] := by
  rw [getSummary_ofCategory H sampleExpenses "Food" (by decide)]
  decide

/-- C15: on a host that reads the amounts `50`, `100`, `25` and the three ISO
dates as ECMAScript defines them, the three requests `Food, 50, 2024-01-10`,
`Travel, 100, 2024-01-15` and `Food, 25, 2024-02-01`, from the empty store,
leave three records; `getSummary({ category: "Food" })` then returns total 75
with exactly the 2 records of ids 1 and 3, in that order, and the analysis has
`monthlyTotals` equal to `2024-01: 150, 2024-02: 25`. -/
theorem end_to_end_scenario (H : Host)
    (h50 : H.parseFloat "50" = .fin 50) (h100 : H.parseFloat "100" = .fin 100)
    (h25 : H.parseFloat "25" = .fin 25)
    (hd1 : H.dateParse "2024-01-10" = some 1704844800000)
    (hd2 : H.dateParse "2024-01-15" = some 1705276800000)
    (hd3 : H.dateParse "2024-02-01" = some 1706745600000) :
    runAdds H [] scenarioQueries = sampleExpenses ∧
    (getSummary H (runAdds H [] scenarioQueries) (Filter.ofCategory "Food")).total = .fin 75 ∧
    (getSummary H (runAdds H [] scenarioQueries) (Filter.ofCategory "Food")).expenses.length =
      2 ∧
    (getSummary H (runAdds H [] scenarioQueries) (Filter.ofCategory "Food")).expenses.map
      Expense.id = [1, 3] ∧
    (analysis H (runAdds H [] scenarioQueries)).map Analysis.monthlyTotals =
      .ok [("2024-01", .fin 150), ("2024-02", .fin 25)] := by
  have hv : ∀ (c : String) (a : JSNum) (d : String) (t : Int), c ∈ predefinedCategories →
      a.Positive → H.dateParse d = some t → d ≠ "" →
      (validateExpense H { category := .str c, amount := some a, date := .str d }).valid =
        true := by
    intro c a d t hc ha hd hne
    rw [valid_eq_true_iff]
    rcases validateExpense_cases H { category := .str c, amount := some a, date := .str d } with
      ⟨h1, _⟩ | ⟨_, h2, _⟩ | ⟨_, _, h3, _⟩ | ⟨_, _, _, e⟩
    · exact absurd (List.mem_map_of_mem QVal.str hc) h1
    · exfalso
      rcases h2 with h2 | h2 | ⟨x, hx, hnp⟩
      · cases h2
      · rw [Option.some.injEq] at h2
        rw [h2] at ha
        rcases ha with ha | ⟨q, _, ha⟩ <;> cases ha
      · rw [Option.some.injEq] at hx
        subst hx
        rcases ha with rfl | ⟨q, hq, rfl⟩
        · rcases hnp with hnp | ⟨r, hr, _⟩
          · cases hnp
          · cases hr
        · rcases hnp with hnp | ⟨r, hr, hle⟩
          · cases hnp
          · rw [JSNum.fin.injEq] at hr
            rw [hr] at hq
            exact absurd hq (not_lt.2 hle)
    · exfalso
      rcases h3 with h3 | h3 | h3
      · cases h3
      · rw [QVal.str.injEq] at h3
        exact hne h3
      · have : dateParseOf H (.str d) = some t := hd
        rw [this] at h3
        cases h3
    · exact e
  have hrun : runAdds H [] scenarioQueries = sampleExpenses := by
    have p50 : (JSNum.fin 50).Positive := Or.inr ⟨50, by norm_num, rfl⟩
    have p100 : (JSNum.fin 100).Positive := Or.inr ⟨100, by norm_num, rfl⟩
    have p25 : (JSNum.fin 25).Positive := Or.inr ⟨25, by norm_num, rfl⟩
    have e1 : (addExpense H []
        { category := .str "Food", amount := .str "50", date := .str "2024-01-10" }).1 =
          [{ id := 1, category := .str "Food", amount := .fin 50,
             date := .str "2024-01-10" }] := by
      rw [addExpense_of_valid H [] _ (by
        simp only [AddQuery.expense, parseFloatOf, QVal.toStr, h50]
        exact hv "Food" _ _ _ (by decide) p50 hd1 (by decide))]
      simp [parseFloatOf, QVal.toStr, h50]
    have e2 : (addExpense H
        [{ id := 1, category := .str "Food", amount := .fin 50, date := .str "2024-01-10" }]
        { category := .str "Travel", amount := .str "100", date := .str "2024-01-15" }).1 =
          [{ id := 1, category := .str "Food", amount := .fin 50, date := .str "2024-01-10" },
           { id := 2, category := .str "Travel", amount := .fin 100,
             date := .str "2024-01-15" }] := by
      rw [addExpense_of_valid H _ _ (by
        simp only [AddQuery.expense, parseFloatOf, QVal.toStr, h100]
        exact hv "Travel" _ _ _ (by decide) p100 hd2 (by decide))]
      simp [parseFloatOf, QVal.toStr, h100]
    have e3 : (addExpense H
        [{ id := 1, category := .str "Food", amount := .fin 50, date := .str "2024-01-10" },
         { id := 2, category := .str "Travel", amount := .fin 100, date := .str "2024-01-15" }]
        { category := .str "Food", amount := .str "25", date := .str "2024-02-01" }).1 =
          sampleExpenses := by
      rw [addExpense_of_valid H _ _ (by
        simp only [AddQuery.expense, parseFloatOf, QVal.toStr, h25]
        exact hv "Food" _ _ _ (by decide) p25 hd3 (by decide))]
      simp [parseFloatOf, QVal.toStr, h25, sampleExpenses]
    simp only [runAdds, scenarioQueries, List.foldl_cons, List.foldl_nil, e1, e2, e3]
  rw [hrun]
  have hfood := getSummary_food_sample H
  refine ⟨rfl, ?_, by rw [hfood]; rfl, by rw [hfood]; rfl, ?_⟩
  · rw [getSummary_total, hfood]
    have : ([{ id := 1, category := .str "Food", amount := .fin 50, date := .str "2024-01-10" },
        { id := 3, category := .str "Food", amount := .fin 25, date := .str "2024-02-01" }] :
          List Expense).map Expense.amount = [50, 25].map JSNum.fin := by
      decide
    rw [this, sum_fin]
    norm_num
  · have hk1 : monthKey H
        { id := 1, category := .str "Food", amount := .fin 50, date := .str "2024-01-10" } =
          some "2024-01" := by
      simp only [monthKey, newDate, hd1, Option.map_some']
      decide
    have hk2 : monthKey H
        { id := 2, category := .str "Travel", amount := .fin 100, date := .str "2024-01-15" } =
          some "2024-01" := by
      simp only [monthKey, newDate, hd2, Option.map_some']
      decide
    have hk3 : monthKey H
        { id := 3, category := .str "Food", amount := .fin 25, date := .str "2024-02-01" } =
          some "2024-02" := by
      simp only [monthKey, newDate, hd3, Option.map_some']
      decide
    have hdates : ∀ e ∈ sampleExpenses, newDate H e.date ≠ none := by
      intro e he
      simp only [sampleExpenses, List.mem_cons, List.mem_singleton, List.mem_nil_iff,
        or_false] at he
      rcases he with rfl | rfl | rfl <;> simp [newDate, hd1, hd2, hd3]
    have hmonthly : monthlyTotals H sampleExpenses =
        .ok [("2024-01", .fin 150), ("2024-02", .fin 25)] := by
      rw [monthlyTotals_eq_fold H _ hdates]
      simp only [monthlyFold, sampleExpenses, List.foldl_cons, List.foldl_nil, hk1, hk2, hk3,
        Option.getD_some]
      simp [setProp, getProp_cons, getProp_nil, orZero, JSNum.toBoolean, add_eq_add,
        fin_zero_eq]
      show JSNum.fin (50 + 100) = JSNum.fin 150
      norm_num
    simp [analysis, hmonthly, Except.map, bind, Except.bind, pure, Except.pure]

theorem end_to_end_scenario_witness :
    runAdds refHost [] scenarioQueries = sampleExpenses ∧
    (getSummary refHost (runAdds refHost [] scenarioQueries) (Filter.ofCategory "Food")).total =
      .fin 75 ∧
    (analysis refHost (runAdds refHost [] scenarioQueries)).map Analysis.monthlyTotals =
      .ok [("2024-01", .fin 150), ("2024-02", .fin 25)] := by
  have h := end_to_end_scenario refHost (by decide) (by decide) (by decide) (by decide)
    (by decide) (by decide)
  exact ⟨h.1, h.2.1, h.2.2.2.2⟩

/-! ### Reading the store -/

/-- C16: `getSummary` does not modify the store: the handler of `/expenses`
leaves the array as it found it, so a second call with the same filter and no
append in between gives the same result, total and records in the same order;
in particular for the filter `{}`. -/
theorem getSummary_repeatable (H : Host) (expenses : List Expense) (f : Filter) :
    (expensesRoute H expenses f).1 = expenses ∧
    (expensesRoute H (expensesRoute H expenses f).1 f).2 = (expensesRoute H expenses f).2 ∧
    (expensesRoute H expenses f).2.data = getSummary H expenses f ∧
    (expensesRoute H (expensesRoute H expenses Filter.empty).1 Filter.empty).2.data =
      getSummary H expenses Filter.empty ∧
    (getSummary H expenses Filter.empty).expenses = expenses := by
  refine ⟨rfl, rfl, rfl, rfl, ?_⟩
  simp [getSummary, Filter.empty, QVal.toBoolean]

/-- C17: on every store reachable by requests to `/add-expense`, the date of
every record parses, so the analysis converts each of them to its month
without error and returns its data; `getSummary`, which has no failing
operation, returns a summary for every filter. -/
theorem analysis_total_on_reachable (H : Host) (expenses : List Expense)
    (h : Reachable H expenses) :
    (∀ e ∈ expenses, newDate H e.date ≠ none) ∧
    (∀ e ∈ expenses, ∃ iso, toISOString (newDate H e.date) = .ok iso) ∧
    (∀ e ∈ expenses, ∃ month, monthOf H e = .ok month) ∧
    (∃ data, analysis H expenses = .ok data ∧
      data.totalByCategory = totalByCategory expenses) ∧
    ∀ f, ∃ summary, getSummary H expenses f = summary ∧
      summary.expenses.Sublist expenses := by
  have hdates : ∀ e ∈ expenses, newDate H e.date ≠ none :=
    fun e he => (reachable_wellFormed H expenses h e he).2.2
  refine ⟨hdates, ?_, ?_, ?_, ?_⟩
  · intro e he
    obtain ⟨t, ht⟩ := Option.ne_none_iff_exists'.1 (hdates e he)
    exact ⟨isoString t, by rw [ht]; rfl⟩
  · intro e he
    exact ⟨_, (monthOf_eq_ok H e (hdates e he)).1⟩
  · refine ⟨{ totalByCategory := totalByCategory expenses,
              monthlyTotals := monthlyFold (fun e => (monthKey H e).getD "") expenses [] },
      ?_, rfl⟩
    simp [analysis, monthlyTotals_eq_fold H expenses hdates, bind, Except.bind, pure,
      Except.pure]
  · intro f
    refine ⟨_, rfl, ?_⟩
    rw [getSummary_expenses_eq]
    exact List.filter_sublist _

theorem analysis_total_on_reachable_witness :
    ∃ data, analysis refHost (runAdds refHost [] scenarioQueries) = .ok data ∧
      data.totalByCategory = totalByCategory (runAdds refHost [] scenarioQueries) :=
  (analysis_total_on_reachable refHost _
    (runAdds_reachable refHost scenarioQueries [] Reachable.empty)).2.2.2.1

theorem analysis_throws_on_invalid_date :
    analysis refHost strayExpenses = .error "RangeError: Invalid time value" := by
  have h1 : monthOf refHost
      { id := 1, category := .str "Food", amount := .fin 50, date := .str "2024-01-10" } =
        .ok "2024-01" := by
    rw [(monthOf_of_parsed refHost _ 1704844800000 (by decide)).1]
    exact congrArg Except.ok (by decide)
  have h2 := monthOf_of_invalid refHost
    { id := 2, category := .str "Food", amount := .fin 7, date := .str "abc" } (by decide)
  simp [analysis, monthlyTotals, strayExpenses, List.foldlM_cons, h1, h2, bind, Except.bind,
    pure, Except.pure]

/-! ### The category of the filter -/

/-- C18, as stated, fails: with the category `""`, as `/expenses?category=`
sends it, `getSummary` applies no category filter; on the reachable store of
the scenario it returns the three records with total 175, not an empty result
with total 0. -/
theorem empty_category_returns_store :
    Reachable refHost sampleExpenses ∧
    emptyCategoryFilter.category = .str "" ∧
    (getSummary refHost sampleExpenses emptyCategoryFilter).expenses = sampleExpenses ∧
    (getSummary refHost sampleExpenses emptyCategoryFilter).expenses ≠ [] ∧
    (getSummary refHost sampleExpenses emptyCategoryFilter).total = .fin 175 := by
  have hrun : runAdds refHost [] scenarioQueries = sampleExpenses := by decide
  have hexp : (getSummary refHost sampleExpenses emptyCategoryFilter).expenses =
      sampleExpenses := by decide
  refine ⟨?_, rfl, hexp, by rw [hexp]; decide, ?_⟩
  · rw [← hrun]
    exact runAdds_reachable refHost scenarioQueries [] Reachable.empty
  · rw [getSummary_total, hexp, sampleExpenses_amounts, sum_fin]
    norm_num

/-- C18, amended: when the category of the filter is a non-empty string `c`,
`getSummary` keeps only the records whose category is exactly `c`: its result
is the one of the same filter without category on the records of category `c`.
When the category is the empty string, as `/expenses?category=` sends it, no
category filter is applied: the result is the one of the filter without
category. -/
theorem getSummary_category_present (H : Host) (expenses : List Expense) (f : Filter)
    (c : String) (hc : c ≠ "") :
    (∀ e ∈ (getSummary H expenses { f with category := .str c }).expenses,
      e.category = .str c) ∧
    getSummary H expenses { f with category := .str c } =
      getSummary H (expenses.filter fun e => decide (e.category = .str c))
        { f with category := .undefined } ∧
    getSummary H expenses { f with category := .str "" } =
      getSummary H expenses { f with category := .undefined } := by
  have hu : QVal.undefined.toBoolean = false := rfl
  have he : (QVal.str "").toBoolean = false := by decide
  have ht : (QVal.str c).toBoolean = true := by simp [QVal.toBoolean, hc]
  refine ⟨?_, ?_, ?_⟩
  · intro e hmem
    rw [getSummary_expenses_eq, List.mem_filter] at hmem
    have := hmem.2
    simp only [matchesCategory, ht, strictEq_str, Bool.not_true, Bool.false_or,
      Bool.and_eq_true, decide_eq_true_eq] at this
    exact this.1
  · simp only [getSummary, ht, hu, strictEq_str, if_true, Bool.false_eq_true, if_false]
  · simp only [getSummary, he, hu, Bool.false_eq_true, if_false]

theorem getSummary_category_present_witness :
    getSummary refHost sampleExpenses { januaryFilter with category := .str "Food" } =
      getSummary refHost (sampleExpenses.filter fun e => decide (e.category = .str "Food"))
        { januaryFilter with category := .undefined } :=
  (getSummary_category_present refHost sampleExpenses januaryFilter "Food" (by decide)).2.1

/-! ### Totals of a reachable store -/

theorem indicator_sum (cs : List String) (hnd : cs.Nodup) (v : QVal) (a : JSNum)
    (hv : ∃ c ∈ cs, v = .str c) :
    (cs.map fun c => if v = .str c then a else 0).sum = a := by
  induction cs with
  | nil => obtain ⟨c, hc, _⟩ := hv; cases hc
  | cons c cs ih =>
    rw [List.nodup_cons] at hnd
    rw [List.map_cons, List.sum_cons]
    by_cases h : v = .str c
    · rw [if_pos h]
      have hz : (cs.map fun c => if v = .str c then a else 0) = cs.map fun _ => (0 : JSNum) := by
        apply List.map_congr_left
        intro d hd
        rw [if_neg]
        intro hvd
        rw [h, QVal.str.injEq] at hvd
        exact hnd.1 (hvd ▸ hd)
      rw [hz]
      simp
    · rw [if_neg h, zero_add]
      apply ih hnd.2
      obtain ⟨d, hd, hvd⟩ := hv
      rcases List.mem_cons.1 hd with rfl | hd
      · exact absurd hvd h
      · exact ⟨d, hd, hvd⟩

theorem partition_sum (cs : List String) (hnd : cs.Nodup) (es : List Expense)
    (hcat : ∀ e ∈ es, ∃ c ∈ cs, e.category = .str c) :
    (cs.map fun c =>
        ((es.filter fun e => decide (e.category = .str c)).map Expense.amount).sum).sum =
      (es.map Expense.amount).sum := by
  induction es with
  | nil => simp
  | cons e es ih =>
    have hstep : (fun c : String =>
        (((e :: es).filter fun x => decide (x.category = .str c)).map Expense.amount).sum) =
        fun c => (if e.category = .str c then e.amount else 0) +
          ((es.filter fun x => decide (x.category = .str c)).map Expense.amount).sum := by
      funext c
      by_cases h : e.category = .str c
      · simp [List.filter_cons, h]
      · simp [List.filter_cons, h]
    rw [hstep, List.sum_map_add, indicator_sum cs hnd _ _ (hcat e (List.mem_cons_self _ _)),
      ih fun x hx => hcat x (List.mem_cons_of_mem _ hx), List.map_cons, List.sum_cons]

/-- C19: for every store reachable by requests to `/add-expense`, the sum of
the five totals of `totalByCategory` is the total of `getSummary({})`, with
finite amounts added exactly: every stored record is of one category of the
registry, so the totals by category split the overall total. -/
theorem category_totals_partition (H : Host) (expenses : List Expense)
    (h : Reachable H expenses) :
    JSNum.sum ((totalByCategory expenses).map CategoryTotal.total) =
      (getSummary H expenses Filter.empty).total := by
  have hexp : (getSummary H expenses Filter.empty).expenses = expenses := by
    simp [getSummary, Filter.empty, QVal.toBoolean]
  rw [getSummary_total, hexp, totalByCategory_eq, List.map_map, sum_eq_list_sum,
    sum_eq_list_sum]
  have hfun : (CategoryTotal.total ∘ fun c : String =>
      ({ category := c,
         total := JSNum.sum
          ((expenses.filter fun e => decide (e.category = .str c)).map Expense.amount) } :
        CategoryTotal)) =
      fun c => ((expenses.filter fun e => decide (e.category = .str c)).map Expense.amount).sum := by
    funext c
    exact sum_eq_list_sum _
  rw [hfun]
  exact partition_sum predefinedCategories (by decide) expenses
    fun e he => (reachable_wellFormed H expenses h e he).1

theorem category_totals_partition_witness :
    JSNum.sum ((totalByCategory (runAdds refHost [] scenarioQueries)).map CategoryTotal.total) =
      (getSummary refHost (runAdds refHost [] scenarioQueries) Filter.empty).total :=
  category_totals_partition refHost _
    (runAdds_reachable refHost scenarioQueries [] Reachable.empty)

theorem sublist_sum_decomp (l₁ l₂ : List JSNum) (hsub : l₁.Sublist l₂)
    (hpos : ∀ x ∈ l₂, x.Positive) :
    ∃ r : JSNum, (r = 0 ∨ r.Positive) ∧ l₂.sum = l₁.sum + r := by
  induction hsub with
  | slnil => exact ⟨0, Or.inl rfl, by simp⟩
  | cons a _ ih =>
    obtain ⟨r, hr, hsum⟩ := ih fun x hx => hpos x (List.mem_cons_of_mem _ hx)
    have ha := hpos a (List.mem_cons_self _ _)
    refine ⟨a + r, Or.inr ?_, ?_⟩
    · rcases hr with rfl | hr
      · rw [add_zero]; exact ha
      · exact positive_add _ _ ha hr
    · rw [List.sum_cons, hsum, add_left_comm]
  | cons₂ a _ ih =>
    obtain ⟨r, hr, hsum⟩ := ih fun x hx => hpos x (List.mem_cons_of_mem _ hx)
    exact ⟨r, hr, by rw [List.sum_cons, List.sum_cons, hsum, add_assoc]⟩

theorem le_add_of_nonneg (x r : JSNum) (hx : x = 0 ∨ x.Positive) (hr : r = 0 ∨ r.Positive) :
    JSNum.le (.fin 0) x = true ∧ JSNum.le x (x + r) = true := by
  have hadd : ∀ p q : ℚ, JSNum.fin p + JSNum.fin q = JSNum.fin (p + q) := fun _ _ => rfl
  have hinf : ∀ y : JSNum, y = 0 ∨ y.Positive → JSNum.posInf + y = .posInf := by
    intro y hy
    rcases hy with rfl | rfl | ⟨q, _, rfl⟩ <;> rfl
  rcases hx with rfl | rfl | ⟨p, hp, rfl⟩
  · rw [zero_add]
    rcases hr with rfl | rfl | ⟨q, hq, rfl⟩
    · exact ⟨by decide, by decide⟩
    · exact ⟨by decide, rfl⟩
    · refine ⟨by decide, ?_⟩
      show decide ((0 : ℚ) ≤ q) = true
      exact decide_eq_true (le_of_lt hq)
  · rw [hinf r hr]
    exact ⟨rfl, rfl⟩
  · refine ⟨decide_eq_true (le_of_lt hp), ?_⟩
    rcases hr with rfl | rfl | ⟨q, hq, rfl⟩
    · rw [add_zero]
      exact decide_eq_true (le_refl p)
    · rfl
    · rw [hadd]
      exact decide_eq_true (le_add_of_nonneg_right (le_of_lt hq))

/-- C20: for every store reachable by requests to `/add-expense` and every
filter `f`, `0 <= getSummary(f).total <= getSummary({}).total`, and the total
of `getSummary(f)` is 0 exactly when no record survives the filter: every
stored amount is strictly positive, so a narrower filter never has a larger
total. -/
theorem filtered_total_bounds (H : Host) (expenses : List Expense) (f : Filter)
    (h : Reachable H expenses) :
    JSNum.le (.fin 0) (getSummary H expenses f).total = true ∧
    JSNum.le (getSummary H expenses f).total (getSummary H expenses Filter.empty).total = true ∧
    ((getSummary H expenses f).total = .fin 0 ↔ (getSummary H expenses f).expenses = []) := by
  have hwf := reachable_wellFormed H expenses h
  have hexp : (getSummary H expenses Filter.empty).expenses = expenses := by
    simp [getSummary, Filter.empty, QVal.toBoolean]
  have hsub : (getSummary H expenses f).expenses.Sublist expenses := by
    rw [getSummary_expenses_eq]
    exact List.filter_sublist _
  have hposAll : ∀ x ∈ expenses.map Expense.amount, x.Positive := by
    intro x hx
    obtain ⟨e, he, rfl⟩ := List.mem_map.1 hx
    exact (hwf e he).2.1
  have hposF : ∀ x ∈ (getSummary H expenses f).expenses.map Expense.amount, x.Positive :=
    fun x hx => hposAll x ((hsub.map Expense.amount).subset hx)
  have hnonneg : (getSummary H expenses f).total = 0 ∨ (getSummary H expenses f).total.Positive := by
    rw [getSummary_total, sum_eq_list_sum]
    by_cases hnil : (getSummary H expenses f).expenses.map Expense.amount = []
    · rw [hnil]; exact Or.inl rfl
    · exact Or.inr (list_sum_positive _ hnil hposF)
  obtain ⟨r, hr, hsum⟩ := sublist_sum_decomp _ _ (hsub.map Expense.amount) hposAll
  have hle := le_add_of_nonneg _ r hnonneg hr
  refine ⟨hle.1, ?_, ?_⟩
  · have htot : (getSummary H expenses Filter.empty).total =
        (getSummary H expenses f).total + r := by
      rw [getSummary_total H expenses Filter.empty, hexp, sum_eq_list_sum, hsum,
        getSummary_total H expenses f, sum_eq_list_sum]
    rw [htot]
    exact hle.2
  · constructor
    · intro hz
      by_contra hne
      have hne2 : (getSummary H expenses f).expenses.map Expense.amount ≠ [] := by
        simpa using hne
      have hp := list_sum_positive _ hne2 hposF
      rw [← sum_eq_list_sum, ← getSummary_total] at hp
      exact positive_ne_zero _ hp hz
    · intro hnil
      rw [getSummary_total, hnil]
      rfl

theorem filtered_total_bounds_witness :
    JSNum.le (getSummary refHost (runAdds refHost [] scenarioQueries) januaryFilter).total
      (getSummary refHost (runAdds refHost [] scenarioQueries) Filter.empty).total = true :=
  (filtered_total_bounds refHost _ januaryFilter
    (runAdds_reachable refHost scenarioQueries [] Reachable.empty)).2.1

end ExpenseTracker
